import Mathlib

/-!
Shallow embedding of the separable 1D convolution / transpose kernels from
`src/convolution/convolution.h` and `src/convolution/convolution.cpp`.

Modelling conventions:
* All C++ `unsigned int` quantities are modelled as `Nat`; every arithmetic
  operation the C++ performs on `unsigned int` values is followed by `% U32`
  (`U32 = 2^32`), so 32-bit wraparound is represented exactly.  Function
  parameters stand for the values of the C++ `unsigned int` arguments, hence
  theorems about C++-reachable calls carry `< U32` hypotheses where needed.
* Buffers (`std::vector<float>`) are `List α`; their `size_t` lengths are
  plain `Nat`.  Sample values are kept abstract: any type with `Add`, `Mul`
  and `Zero` (the convolution inner loop only ever adds products to a zero
  accumulator, so both layouts perform literally the same operation sequence
  on the same abstract values).
* `operator[]` on a vector is guarded: a read uses `l[i]?` and a write uses
  `setM` (returning `none` when the index is out of range).  A whole call
  therefore returns `Option (Bool × List α)`: `some (false, result)` for a
  validation failure (buffer untouched), `some (true, result')` for a
  completed run, and `none` when the C++ would index out of bounds
  (undefined behaviour).
* C++ `for` loops over an increasing counter are modelled by the fuel-style
  iterator `iterM`; the iteration count is computed from the loop bounds with
  the same 32-bit arithmetic the loop condition uses (`usub` is 32-bit
  subtraction).  Inside a loop body, counters satisfy the loop invariants
  (e.g. `col ≥ center`), so `Nat` subtraction there agrees with the C++
  unsigned subtraction.
-/

def U32 : Nat := 4294967296

/-- 32-bit unsigned subtraction `a - b` for `a < U32`, `b < U32`. -/
def usub (a b : Nat) : Nat := (a + U32 - b % U32) % U32

/-- Guarded write `l[i] = v`: fails (like C++ UB) when `i` is out of range. -/
def setM (l : List α) (i : Nat) (v : α) : Option (List α) :=
  if i < l.length then some (l.set i v) else none

/-- Fuel-style loop: run `body` at indices `i, i+1, ..., i+n-1`, threading the
state, stopping with `none` as soon as the body fails. -/
def iterM {σ : Type u} (body : Nat → σ → Option σ) : Nat → Nat → σ → Option σ
  | _, 0, s => some s
  | i, n + 1, s => (body i s).bind (iterM body (i + 1) n)

/-- The inner accumulation loop of every convolution variant:
`conv += kernel[k] * image[(base + k*stride) mod 2^32]` for `k` running over
the kernel, starting from accumulator `acc` at kernel index `k0`.  Reads are
guarded.  (For the planar-horizontal variant the C++ reads
`image[colStart + kernelIndex]`, i.e. `stride = 1`.) -/
def convSumM [Add α] [Mul α] (image : List α) (base stride : Nat) :
    List α → Nat → α → Option α
  | [], _, acc => some acc
  | v :: rest, k, acc =>
    match image[(base + (k * stride) % U32) % U32]? with
    | none => none
    | some x => convSumM image base stride rest (k + 1) (acc + v * x)

/-- The weighted window sum the specification describes: the same accumulation
as `convSumM`, written with exact (non-wrapping) index arithmetic and total
reads; it agrees with the code's inner loop whenever no index wraps or
escapes the buffer (proved below). -/
def kernelDot [Add α] [Mul α] [Zero α] (image : List α) (base stride : Nat) :
    List α → Nat → α → α
  | [], _, acc => acc
  | v :: rest, k, acc =>
    kernelDot image base stride rest (k + 1) (acc + v * image.getD (base + k * stride) 0)

/-- Applying a list of index/value writes in order (pure form of the loops;
used to state and prove what a completed run wrote). -/
def applyWrites (ws : List (Nat × α)) (l : List α) : List α :=
  ws.foldl (fun r p => r.set p.1 p.2) l

/-- The common validation of the four convolution entry points
(`convolution.h`): odd kernel, channel in range, destination at least as
large as the source, and the 32-bit product `height*width*numChannels` not
exceeding the source length. -/
def ConvValid (kernel image result : List α)
    (height width numChannels channelIndex : Nat) : Prop :=
  kernel.length % 2 = 1 ∧ channelIndex < numChannels ∧
    image.length ≤ result.length ∧
    (height * width) % U32 * numChannels % U32 ≤ image.length

instance (kernel image result : List α) (h w c ch : Nat) :
    Decidable (ConvValid kernel image result h w c ch) := by
  unfold ConvValid; infer_instance

/-- The validation of `transposePlanar` (`convolution.cpp`): destination at
least as large as the source, and the 32-bit product
`height*width*numChannels` not exceeding the source length. -/
def TransValid (src : List α) (height width numChannels : Nat) (dst : List α) : Prop :=
  src.length ≤ dst.length ∧ (height * width) % U32 * numChannels % U32 ≤ src.length

instance (src : List α) (h w c : Nat) (dst : List α) :
    Decidable (TransValid src h w c dst) := by
  unfold TransValid; infer_instance

/-- `convolve1DHorizontalPlanar` from `convolution.h` (lines 18-61). -/
def convolve1DHorizontalPlanar [Add α] [Mul α] [Zero α] (kernel image : List α)
    (height width numChannels channelIndex : Nat) (result : List α) :
    Option (Bool × List α) :=
  if kernel.length % 2 ≠ 1 then some (false, result)
  else if channelIndex ≥ numChannels then some (false, result)
  else if result.length < image.length then some (false, result)
  else if (height * width) % U32 * numChannels % U32 > image.length then some (false, result)
  else
    let center := kernel.length % U32 / 2
    let channelStart := (height * width) % U32 * channelIndex % U32
    (iterM (fun row res =>
        let rowStart := (channelStart + (row * width) % U32) % U32
        iterM (fun col res2 =>
            (convSumM image ((rowStart + (col - center)) % U32) 1 kernel 0 0).bind
              (fun v => setM res2 ((rowStart + col) % U32) v))
          center (usub width center - center) res)
      0 height result).map (fun r => (true, r))

/-- `convolve1DVerticalPlanar` from `convolution.h` (lines 78-121). -/
def convolve1DVerticalPlanar [Add α] [Mul α] [Zero α] (kernel image : List α)
    (height width numChannels channelIndex : Nat) (result : List α) :
    Option (Bool × List α) :=
  if kernel.length % 2 ≠ 1 then some (false, result)
  else if channelIndex ≥ numChannels then some (false, result)
  else if result.length < image.length then some (false, result)
  else if (height * width) % U32 * numChannels % U32 > image.length then some (false, result)
  else
    let center := kernel.length % U32 / 2
    let channelStart := (height * width) % U32 * channelIndex % U32
    (iterM (fun col res =>
        let colStart := (channelStart + col) % U32
        iterM (fun row res2 =>
            (convSumM image ((colStart + ((row - center) * width) % U32) % U32) width
                kernel 0 0).bind
              (fun v => setM res2 ((colStart + (row * width) % U32) % U32) v))
          center (usub height center - center) res)
      0 width result).map (fun r => (true, r))

/-- `convolve1DHorizontalInterleaved` from `convolution.h` (lines 138-181). -/
def convolve1DHorizontalInterleaved [Add α] [Mul α] [Zero α] (kernel image : List α)
    (height width numChannels channelIndex : Nat) (result : List α) :
    Option (Bool × List α) :=
  if kernel.length % 2 ≠ 1 then some (false, result)
  else if channelIndex ≥ numChannels then some (false, result)
  else if result.length < image.length then some (false, result)
  else if (height * width) % U32 * numChannels % U32 > image.length then some (false, result)
  else
    let center := kernel.length % U32 / 2
    let pxStride := numChannels
    let rowStride := pxStride * width % U32
    (iterM (fun row res =>
        let rowStart := ((row * rowStride) % U32 + channelIndex) % U32
        iterM (fun col res2 =>
            (convSumM image ((rowStart + ((col - center) * pxStride) % U32) % U32) pxStride
                kernel 0 0).bind
              (fun v => setM res2 ((rowStart + (col * pxStride) % U32) % U32) v))
          center (usub width center - center) res)
      0 height result).map (fun r => (true, r))

/-- `convolve1DVerticalInterleaved` from `convolution.h` (lines 198-241). -/
def convolve1DVerticalInterleaved [Add α] [Mul α] [Zero α] (kernel image : List α)
    (height width numChannels channelIndex : Nat) (result : List α) :
    Option (Bool × List α) :=
  if kernel.length % 2 ≠ 1 then some (false, result)
  else if channelIndex ≥ numChannels then some (false, result)
  else if result.length < image.length then some (false, result)
  else if (height * width) % U32 * numChannels % U32 > image.length then some (false, result)
  else
    let center := kernel.length % U32 / 2
    let pxStride := numChannels
    let rowStride := pxStride * width % U32
    (iterM (fun col res =>
        let colStart := ((col * pxStride) % U32 + channelIndex) % U32
        iterM (fun row res2 =>
            (convSumM image ((colStart + ((row - center) * rowStride) % U32) % U32) rowStride
                kernel 0 0).bind
              (fun v => setM res2 ((colStart + (row * rowStride) % U32) % U32) v))
          center (usub height center - center) res)
      0 width result).map (fun r => (true, r))

/-- `transposePlanar` from `convolution.cpp` (lines 3-29). -/
def transposePlanar (src : List α) (height width numChannels : Nat) (dst : List α) :
    Option (Bool × List α) :=
  if src.length > dst.length then some (false, dst)
  else if (height * width) % U32 * numChannels % U32 > src.length then some (false, dst)
  else
    (iterM (fun ch d =>
        let chStart := (ch * height) % U32 * width % U32
        iterM (fun srcRow d2 =>
            let srcRowStart := (chStart + (srcRow * width) % U32) % U32
            iterM (fun srcCol d3 =>
                (src[(srcRowStart + srcCol) % U32]?).bind
                  (fun v => setM d3 (((chStart + (srcCol * height) % U32) % U32 + srcRow) % U32) v))
              0 width d2)
          0 height d)
      0 numChannels dst).map (fun r => (true, r))

example : convolve1DHorizontalPlanar [(1 : Int), 1, 1] [1, 2, 3, 1] 1 4 1 0 [0, 0, 0, 0]
    = some (true, [0, 6, 6, 0]) := by decide

example : transposePlanar [(1 : Int), 2, 3, 4, 5, 6] 2 3 1 [0, 0, 0, 0, 0, 0]
    = some (true, [1, 4, 2, 5, 3, 6]) := by decide

/-! ### Generic machinery: pure characterization of the guarded loops -/

theorem iterM_succ {σ : Type u} (body : Nat → σ → Option σ) (i n : Nat) (s : σ) :
    iterM body i (n + 1) s = (body i s).bind (iterM body (i + 1) n) := rfl

theorem applyWrites_cons (p : Nat × α) (ws : List (Nat × α)) (l : List α) :
    applyWrites (p :: ws) l = applyWrites ws (l.set p.1 p.2) := rfl

theorem applyWrites_append (ws1 ws2 : List (Nat × α)) (l : List α) :
    applyWrites (ws1 ++ ws2) l = applyWrites ws2 (applyWrites ws1 l) :=
  List.foldl_append ..

theorem applyWrites_length (ws : List (Nat × α)) (l : List α) :
    (applyWrites ws l).length = l.length := by
  induction ws generalizing l with
  | nil => rfl
  | cons p ws ih => rw [applyWrites_cons, ih, List.length_set]

theorem applyWrites_getElem?_not_mem (ws : List (Nat × α)) (l : List α) (j : Nat)
    (h : ∀ p ∈ ws, p.1 ≠ j) : (applyWrites ws l)[j]? = l[j]? := by
  induction ws generalizing l with
  | nil => rfl
  | cons p ws ih =>
    rw [applyWrites_cons, ih _ (fun q hq => h q (List.mem_cons_of_mem _ hq)),
      List.getElem?_set_ne (h p (List.mem_cons_self _ _))]

theorem applyWrites_getElem?_last (ws1 ws2 : List (Nat × α)) (j : Nat) (v : α) (l : List α)
    (hj : j < l.length) (h2 : ∀ p ∈ ws2, p.1 ≠ j) :
    (applyWrites (ws1 ++ (j, v) :: ws2) l)[j]? = some v := by
  rw [applyWrites_append, applyWrites_cons,
    applyWrites_getElem?_not_mem _ _ _ h2]
  have hl : j < (applyWrites ws1 l).length := by rw [applyWrites_length]; exact hj
  exact List.getElem?_set_self hl

theorem iterM_writes (val : Nat → Option α) (idx : Nat → Nat) (pv : Nat → α)
    (start n : Nat) (l : List α)
    (hval : ∀ i, start ≤ i → i < start + n → val i = some (pv i))
    (hidx : ∀ i, start ≤ i → i < start + n → idx i < l.length) :
    iterM (fun i s => (val i).bind (fun v => setM s (idx i) v)) start n l
      = some (applyWrites ((List.range' start n).map (fun i => (idx i, pv i))) l) := by
  induction n generalizing start l with
  | zero => rfl
  | succ n ih =>
    have hset : setM l (idx start) (pv start) = some (l.set (idx start) (pv start)) := by
      unfold setM
      rw [if_pos (hidx start (Nat.le_refl _) (by omega))]
    have hbody : (val start).bind (fun v => setM l (idx start) v)
        = some (l.set (idx start) (pv start)) := by
      rw [hval start (Nat.le_refl _) (by omega)]
      exact hset
    rw [iterM_succ, hbody, List.range'_succ, List.map_cons, applyWrites_cons]
    exact ih (start + 1) (l.set (idx start) (pv start))
      (fun i h1 h2 => hval i (by omega) (by omega))
      (fun i h1 h2 => by rw [List.length_set]; exact hidx i (by omega) (by omega))

theorem iterM_nested (f : Nat → List (Nat × α)) (body : Nat → List α → Option (List α))
    (start n : Nat) (l : List α) (L : Nat) (hlen : l.length = L)
    (hbody : ∀ i s, start ≤ i → i < start + n → List.length (α := α) s = L →
        body i s = some (applyWrites (f i) s)) :
    iterM body start n l = some (applyWrites ((List.range' start n).flatMap f) l) := by
  induction n generalizing start l with
  | zero => rfl
  | succ n ih =>
    rw [List.range'_succ, List.flatMap_cons, iterM_succ,
      hbody start l (Nat.le_refl _) (by omega) hlen]
    rw [show (some (applyWrites (f start) l)).bind (iterM body (start + 1) n)
        = iterM body (start + 1) n (applyWrites (f start) l) from rfl]
    rw [applyWrites_append]
    exact ih (start + 1) (applyWrites (f start) l) (by rw [applyWrites_length]; exact hlen)
      (fun i s h1 h2 hs => hbody i s (by omega) (by omega) hs)

theorem convSumM_eq_kernelDot [Add α] [Mul α] [Zero α] (image : List α) (base stride : Nat)
    (kernel : List α) (k0 : Nat) (acc : α)
    (hb : ∀ k, k0 ≤ k → k < k0 + kernel.length →
        base + k * stride < U32 ∧ base + k * stride < image.length) :
    convSumM image base stride kernel k0 acc
      = some (kernelDot image base stride kernel k0 acc) := by
  induction kernel generalizing k0 acc with
  | nil => rfl
  | cons v rest ih =>
    obtain ⟨hlt, hmem⟩ := hb k0 (Nat.le_refl _) (by simp only [List.length_cons]; omega)
    have h1 : (k0 * stride) % U32 = k0 * stride := Nat.mod_eq_of_lt (by omega)
    have h2 : (base + k0 * stride) % U32 = base + k0 * stride := Nat.mod_eq_of_lt hlt
    show (match image[(base + (k0 * stride) % U32) % U32]? with
      | none => none
      | some x => convSumM image base stride rest (k0 + 1) (acc + v * x))
      = some (kernelDot image base stride (v :: rest) k0 acc)
    rw [h1, h2, List.getElem?_eq_getElem hmem]
    show convSumM image base stride rest (k0 + 1) (acc + v * image[base + k0 * stride])
      = some (kernelDot image base stride (v :: rest) k0 acc)
    have hgd : image.getD (base + k0 * stride) 0 = image[base + k0 * stride] := by
      rw [List.getD_eq_getElem?_getD, List.getElem?_eq_getElem hmem]
      rfl
    show _ = some (kernelDot image base stride rest (k0 + 1)
      (acc + v * image.getD (base + k0 * stride) 0))
    rw [hgd]
    exact ih (k0 + 1) _
      (fun k hk1 hk2 => hb k (by omega) (by simp only [List.length_cons]; omega))

theorem usub_eq {a b : Nat} (h1 : b ≤ a) (h2 : a < U32) : usub a b = a - b := by
  unfold usub
  rw [Nat.mod_eq_of_lt (Nat.lt_of_le_of_lt h1 h2)]
  rw [show a + U32 - b = U32 + (a - b) by omega, Nat.add_mod_left]
  exact Nat.mod_eq_of_lt (by omega)

theorem mem_range1 {s n m : Nat} : m ∈ List.range' s n ↔ s ≤ m ∧ m < s + n := by
  rw [List.mem_range']
  constructor
  · rintro ⟨i, hi, rfl⟩
    omega
  · intro ⟨h1, h2⟩
    exact ⟨m - s, by omega, by omega⟩

theorem range'_split {s n i : Nat} (h1 : s ≤ i) (h2 : i < s + n) :
    List.range' s n = List.range' s (i - s) ++ i :: List.range' (i + 1) (s + n - i - 1) := by
  have ha : List.range' s (i - s) ++ List.range' (s + (i - s)) (n - (i - s))
      = List.range' s ((n - (i - s)) + (i - s)) := List.range'_append_1 s (i - s) (n - (i - s))
  rw [show (n - (i - s)) + (i - s) = n by omega] at ha
  rw [show s + (i - s) = i by omega] at ha
  rw [show n - (i - s) = (s + n - i - 1) + 1 by omega] at ha
  rw [List.range'_succ] at ha
  exact ha.symm

/-- Value written at position `wIdx o i` by a doubly nested write loop,
provided no later iteration (in row-major order) writes the same position. -/
theorem applyWrites_2d_get (wIdx : Nat → Nat → Nat) (pv : Nat → Nat → α)
    (s1 n1 s2 n2 : Nat) (l : List α) (o i : Nat)
    (ho1 : s1 ≤ o) (ho2 : o < s1 + n1) (hi1 : s2 ≤ i) (hi2 : i < s2 + n2)
    (hlt : wIdx o i < l.length)
    (hne : ∀ o2 i2, s1 ≤ o2 → o2 < s1 + n1 → s2 ≤ i2 → i2 < s2 + n2 →
        (o < o2 ∨ (o2 = o ∧ i < i2)) → wIdx o2 i2 ≠ wIdx o i) :
    (applyWrites ((List.range' s1 n1).flatMap
        (fun o2 => (List.range' s2 n2).map (fun i2 => (wIdx o2 i2, pv o2 i2)))) l)[wIdx o i]?
      = some (pv o i) := by
  have hmid : (List.range' s2 n2).map (fun i2 => (wIdx o i2, pv o i2))
      = (List.range' s2 (i - s2)).map (fun i2 => (wIdx o i2, pv o i2)) ++
        (wIdx o i, pv o i) ::
          (List.range' (i + 1) (s2 + n2 - i - 1)).map (fun i2 => (wIdx o i2, pv o i2)) := by
    rw [range'_split hi1 hi2, List.map_append, List.map_cons]
  have hws : (List.range' s1 n1).flatMap
        (fun o2 => (List.range' s2 n2).map (fun i2 => (wIdx o2 i2, pv o2 i2)))
      = ((List.range' s1 (o - s1)).flatMap
            (fun o2 => (List.range' s2 n2).map (fun i2 => (wIdx o2 i2, pv o2 i2))) ++
          (List.range' s2 (i - s2)).map (fun i2 => (wIdx o i2, pv o i2))) ++
        (wIdx o i, pv o i) ::
          ((List.range' (i + 1) (s2 + n2 - i - 1)).map (fun i2 => (wIdx o i2, pv o i2)) ++
            (List.range' (o + 1) (s1 + n1 - o - 1)).flatMap
              (fun o2 => (List.range' s2 n2).map (fun i2 => (wIdx o2 i2, pv o2 i2)))) := by
    rw [range'_split ho1 ho2, List.flatMap_append, List.flatMap_cons, hmid]
    simp [List.append_assoc]
  rw [hws]
  apply applyWrites_getElem?_last _ _ _ _ _ hlt
  intro p hp
  rcases List.mem_append.mp hp with hp1 | hp2
  · rcases List.mem_map.mp hp1 with ⟨i2, hi2m, rfl⟩
    rcases mem_range1.mp hi2m with ⟨ha, hb⟩
    exact hne o i2 ho1 ho2 (by omega) (by omega) (Or.inr ⟨rfl, by omega⟩)
  · rcases List.mem_flatMap.mp hp2 with ⟨o2, ho2m, hpm⟩
    rcases mem_range1.mp ho2m with ⟨ha, hb⟩
    rcases List.mem_map.mp hpm with ⟨i2, hi2m, rfl⟩
    rcases mem_range1.mp hi2m with ⟨hc, hd⟩
    exact hne o2 i2 (by omega) (by omega) hc hd (Or.inl (by omega))

/-- Positions never written by a doubly nested write loop keep their value. -/
theorem applyWrites_2d_not_mem (wIdx : Nat → Nat → Nat) (pv : Nat → Nat → α)
    (s1 n1 s2 n2 : Nat) (l : List α) (j : Nat)
    (hj : ∀ o i, s1 ≤ o → o < s1 + n1 → s2 ≤ i → i < s2 + n2 → wIdx o i ≠ j) :
    (applyWrites ((List.range' s1 n1).flatMap
        (fun o2 => (List.range' s2 n2).map (fun i2 => (wIdx o2 i2, pv o2 i2)))) l)[j]?
      = l[j]? := by
  apply applyWrites_getElem?_not_mem
  intro p hp
  rcases List.mem_flatMap.mp hp with ⟨o2, ho2m, hpm⟩
  rcases mem_range1.mp ho2m with ⟨ha, hb⟩
  rcases List.mem_map.mp hpm with ⟨i2, hi2m, rfl⟩
  rcases mem_range1.mp hi2m with ⟨hc, hd⟩
  exact hj o2 i2 ha hb hc hd

theorem row_col_inj {w r1 c1 r2 c2 : Nat} (h1 : c1 < w) (h2 : c2 < w)
    (he : r1 * w + c1 = r2 * w + c2) : r1 = r2 ∧ c1 = c2 := by
  rcases Nat.lt_trichotomy r1 r2 with hlt | heq | hgt
  · have : r1 * w + c1 < r2 * w + c2 := by
      calc r1 * w + c1 < r1 * w + w := by omega
      _ = (r1 + 1) * w := by ring
      _ ≤ r2 * w := Nat.mul_le_mul_right w (by omega)
      _ ≤ r2 * w + c2 := by omega
    omega
  · subst heq
    exact ⟨rfl, by omega⟩
  · have : r2 * w + c2 < r1 * w + c1 := by
      calc r2 * w + c2 < r2 * w + w := by omega
      _ = (r2 + 1) * w := by ring
      _ ≤ r1 * w := Nat.mul_le_mul_right w (by omega)
      _ ≤ r1 * w + c1 := by omega
    omega

theorem convolve1DHorizontalPlanar_eq_of_valid [Add α] [Mul α] [Zero α]
    {kernel image result : List α} {h w c ch : Nat}
    (hv : ConvValid kernel image result h w c ch) :
    convolve1DHorizontalPlanar kernel image h w c ch result =
      (iterM (fun row res =>
          iterM (fun col res2 =>
              (convSumM image ((((h * w) % U32 * ch % U32 + (row * w) % U32) % U32 +
                  (col - kernel.length % U32 / 2)) % U32) 1 kernel 0 0).bind
                (fun v => setM res2 ((((h * w) % U32 * ch % U32 + (row * w) % U32) % U32 +
                  col) % U32) v))
            (kernel.length % U32 / 2)
            (usub w (kernel.length % U32 / 2) - kernel.length % U32 / 2) res)
        0 h result).map (fun r => (true, r)) := by
  obtain ⟨h1, h2, h3, h4⟩ := hv
  unfold convolve1DHorizontalPlanar
  rw [if_neg (by omega), if_neg (by omega), if_neg (by omega), if_neg (by omega)]


/-- Full characterization of a validated, overflow-free run of
`convolve1DHorizontalPlanar`: it succeeds and writes exactly the interior
window sums of the selected channel, leaving everything else unchanged. -/
theorem convolve1DHorizontalPlanar_spec [Add α] [Mul α] [Zero α]
    (kernel image result : List α) (h w c ch : Nat)
    (hk : kernel.length < U32)
    (hodd : kernel.length % 2 = 1)
    (hch : ch < c)
    (hres : image.length ≤ result.length)
    (hcap : h * w * c ≤ image.length)
    (hnow : h * w * c < U32)
    (hcw : kernel.length / 2 ≤ w) :
    ∃ res, convolve1DHorizontalPlanar kernel image h w c ch result = some (true, res) ∧
      res.length = result.length ∧
      (∀ r, r < h → ∀ col, kernel.length / 2 ≤ col → col < w - kernel.length / 2 →
        res[h * w * ch + r * w + col]? =
          some (kernelDot image (h * w * ch + r * w + (col - kernel.length / 2)) 1 kernel 0 0)) ∧
      (∀ j, (∀ r, r < h → ∀ col, kernel.length / 2 ≤ col → col < w - kernel.length / 2 →
          h * w * ch + r * w + col ≠ j) → res[j]? = result[j]?) := by
  have hv : ConvValid kernel image result h w c ch := by
    refine ⟨hodd, hch, hres, ?_⟩
    have e1 : (h * w) % U32 = h * w :=
      Nat.mod_eq_of_lt (Nat.lt_of_le_of_lt (Nat.le_mul_of_pos_right _ (by omega)) hnow)
    rw [e1, Nat.mod_eq_of_lt hnow]
    exact hcap
  have hcen : kernel.length % U32 = kernel.length := Nat.mod_eq_of_lt hk
  set cen := kernel.length / 2 with hcendef
  have hklen : kernel.length = 2 * cen + 1 := by omega
  have hle1 : h * w ≤ h * w * c := Nat.le_mul_of_pos_right _ (by omega)
  have e1 : (h * w) % U32 = h * w := Nat.mod_eq_of_lt (Nat.lt_of_le_of_lt hle1 hnow)
  have hle2 : h * w * ch ≤ h * w * c := Nat.mul_le_mul_left _ (Nat.le_of_lt hch)
  have e2 : (h * w) % U32 * ch % U32 = h * w * ch := by
    rw [e1]
    exact Nat.mod_eq_of_lt (Nat.lt_of_le_of_lt hle2 hnow)
  have hbound : ∀ r col, r < h → col < w → h * w * ch + r * w + col < h * w * c := by
    intro r col hr hcol
    have h1 : r * w + w ≤ h * w := by
      have h0 : (r + 1) * w ≤ h * w := Nat.mul_le_mul_right w (by omega)
      calc r * w + w = (r + 1) * w := by ring
      _ ≤ h * w := h0
    have h2 : h * w * ch + h * w = h * w * (ch + 1) := by ring
    have h3 : h * w * (ch + 1) ≤ h * w * c := Nat.mul_le_mul_left _ (by omega)
    omega
  have e3 : ∀ r, r < h → (r * w) % U32 = r * w := by
    intro r hr
    have : r * w ≤ h * w := Nat.mul_le_mul_right w (Nat.le_of_lt hr)
    exact Nat.mod_eq_of_lt (by omega)
  have e4 : ∀ r, r < h → (h * w * ch + r * w) % U32 = h * w * ch + r * w := by
    intro r hr
    have : r * w ≤ h * w := Nat.mul_le_mul_right w (Nat.le_of_lt hr)
    have h2 : h * w * ch + h * w = h * w * (ch + 1) := by ring
    have h3 : h * w * (ch + 1) ≤ h * w * c := Nat.mul_le_mul_left _ (by omega)
    exact Nat.mod_eq_of_lt (by omega)
  have eW : ∀ r col, r < h → col < w →
      (((h * w) % U32 * ch % U32 + (r * w) % U32) % U32 + col) % U32
        = h * w * ch + r * w + col := by
    intro r col hr hcol
    rw [e2, e3 r hr, e4 r hr]
    exact Nat.mod_eq_of_lt (Nat.lt_trans (hbound r col hr hcol) hnow)
  have eB : ∀ r col, r < h → cen ≤ col → col < w →
      (((h * w) % U32 * ch % U32 + (r * w) % U32) % U32 + (col - cen)) % U32
        = h * w * ch + r * w + (col - cen) := by
    intro r col hr hc1 hcol
    rw [e2, e3 r hr, e4 r hr]
    exact Nat.mod_eq_of_lt (Nat.lt_trans (hbound r (col - cen) hr (by omega)) hnow)
  have hD1 : ∀ col, 0 < h → cen ≤ col → col < cen + (usub w cen - cen) → col < w - cen := by
    intro col h0 h1 h2
    by_cases hw0 : w = 0
    · exfalso
      have hc0 : cen = 0 := by omega
      rw [hw0, hc0] at h2
      have hu : usub 0 0 = 0 := by decide
      omega
    · have hwle : w ≤ h * w * c := by
        have w1 : w ≤ h * w := Nat.le_mul_of_pos_left w (by omega)
        omega
      have hu : usub w cen = w - cen := usub_eq hcw (by omega)
      rw [hu] at h2
      omega
  have hD2 : ∀ col, 0 < h → cen ≤ col → col < w - cen → col < cen + (usub w cen - cen) := by
    intro col h0 h1 h2
    have hw1 : 1 ≤ w := by omega
    have hwle : w ≤ h * w * c := by
      have w1 : w ≤ h * w := Nat.le_mul_of_pos_left w (by omega)
      omega
    rw [usub_eq hcw (by omega)]
    omega
  have hbody : ∀ i s, 0 ≤ i → i < 0 + h → List.length (α := α) s = result.length →
      iterM (fun col res2 =>
          (convSumM image ((((h * w) % U32 * ch % U32 + (i * w) % U32) % U32 +
              (col - cen)) % U32) 1 kernel 0 0).bind
            (fun v => setM res2 ((((h * w) % U32 * ch % U32 + (i * w) % U32) % U32 +
              col) % U32) v))
        cen (usub w cen - cen) s
      = some (applyWrites ((List.range' cen (usub w cen - cen)).map fun col =>
          ((((h * w) % U32 * ch % U32 + (i * w) % U32) % U32 + col) % U32,
            kernelDot image ((((h * w) % U32 * ch % U32 + (i * w) % U32) % U32 +
              (col - cen)) % U32) 1 kernel 0 0)) s) := by
    intro i s hi0 hih0 hs
    have hih : i < h := by omega
    refine iterM_writes _ _ _ cen (usub w cen - cen) s ?_ ?_
    · intro col hc1 hc2
      have hcw2 : col < w - cen := hD1 col (by omega) hc1 hc2
      have hcolw : col < w := by omega
      rw [eB i col hih hc1 hcolw]
      apply convSumM_eq_kernelDot
      intro k hk0 hkk
      have hb2 := hbound i (col - cen + k) hih (by omega)
      constructor
      · omega
      · omega
    · intro col hc1 hc2
      have hcw2 : col < w - cen := hD1 col (by omega) hc1 hc2
      have hcolw : col < w := by omega
      rw [eW i col hih hcolw, hs]
      have hb2 := hbound i col hih hcolw
      omega
  refine ⟨applyWrites ((List.range' 0 h).flatMap fun row =>
      (List.range' cen (usub w cen - cen)).map fun col =>
        ((((h * w) % U32 * ch % U32 + (row * w) % U32) % U32 + col) % U32,
          kernelDot image ((((h * w) % U32 * ch % U32 + (row * w) % U32) % U32 +
            (col - cen)) % U32) 1 kernel 0 0)) result, ?_, ?_, ?_, ?_⟩
  · rw [convolve1DHorizontalPlanar_eq_of_valid hv, hcen, ← hcendef]
    rw [iterM_nested _ _ 0 h result result.length rfl hbody]
    rfl
  · exact applyWrites_length _ _
  · intro r hr col hc1 hc2
    have hcolw : col < w := by omega
    rw [← eW r col hr hcolw, ← eB r col hr hc1 hcolw]
    refine applyWrites_2d_get _ _ 0 h cen (usub w cen - cen) result r col
      (by omega) (by omega) hc1 (hD2 col (by omega) hc1 hc2) ?_ ?_
    · rw [eW r col hr hcolw]
      have hb2 := hbound r col hr hcolw
      omega
    · intro r2 col2 ha hb hcc hd hne12
      have hcw2 : col2 < w - cen := hD1 col2 (by omega) hcc hd
      rw [eW r2 col2 (by omega) (by omega), eW r col hr hcolw]
      intro heq
      have heq2 : r2 * w + col2 = r * w + col := by omega
      have hij := row_col_inj (by omega : col2 < w) hcolw heq2
      obtain ⟨hija, hijb⟩ := hij
      omega
  · intro j hj
    refine applyWrites_2d_not_mem _ _ 0 h cen (usub w cen - cen) result j ?_
    intro o i h1 h2 h3 h4
    have h5 : i < w - cen := hD1 i (by omega) h3 h4
    rw [eW o i (by omega) (by omega)]
    exact hj o (by omega) i h3 h5

theorem convolve1DVerticalPlanar_eq_of_valid [Add α] [Mul α] [Zero α]
    {kernel image result : List α} {h w c ch : Nat}
    (hv : ConvValid kernel image result h w c ch) :
    convolve1DVerticalPlanar kernel image h w c ch result =
      (iterM (fun col res =>
          iterM (fun row res2 =>
              (convSumM image ((((h * w) % U32 * ch % U32 + col) % U32 +
                  ((row - kernel.length % U32 / 2) * w) % U32) % U32) w kernel 0 0).bind
                (fun v => setM res2 ((((h * w) % U32 * ch % U32 + col) % U32 +
                  (row * w) % U32) % U32) v))
            (kernel.length % U32 / 2)
            (usub h (kernel.length % U32 / 2) - kernel.length % U32 / 2) res)
        0 w result).map (fun r => (true, r)) := by
  obtain ⟨h1, h2, h3, h4⟩ := hv
  unfold convolve1DVerticalPlanar
  rw [if_neg (by omega), if_neg (by omega), if_neg (by omega), if_neg (by omega)]

/-- Characterization of a validated, overflow-free run of
`convolve1DVerticalPlanar`: it succeeds, writes only interior rows of the
selected channel, and leaves every other position unchanged. -/
theorem convolve1DVerticalPlanar_spec [Add α] [Mul α] [Zero α]
    (kernel image result : List α) (h w c ch : Nat)
    (hk : kernel.length < U32)
    (hodd : kernel.length % 2 = 1)
    (hch : ch < c)
    (hres : image.length ≤ result.length)
    (hcap : h * w * c ≤ image.length)
    (hnow : h * w * c < U32)
    (hch2 : kernel.length / 2 ≤ h) :
    ∃ res, convolve1DVerticalPlanar kernel image h w c ch result = some (true, res) ∧
      res.length = result.length ∧
      (∀ j, (∀ col, col < w → ∀ r, kernel.length / 2 ≤ r → r < h - kernel.length / 2 →
          h * w * ch + r * w + col ≠ j) → res[j]? = result[j]?) := by
  have hv : ConvValid kernel image result h w c ch := by
    refine ⟨hodd, hch, hres, ?_⟩
    have e1 : (h * w) % U32 = h * w :=
      Nat.mod_eq_of_lt (Nat.lt_of_le_of_lt (Nat.le_mul_of_pos_right _ (by omega)) hnow)
    rw [e1, Nat.mod_eq_of_lt hnow]
    exact hcap
  have hcen : kernel.length % U32 = kernel.length := Nat.mod_eq_of_lt hk
  set cen := kernel.length / 2 with hcendef
  have hklen : kernel.length = 2 * cen + 1 := by omega
  have hle1 : h * w ≤ h * w * c := Nat.le_mul_of_pos_right _ (by omega)
  have e1 : (h * w) % U32 = h * w := Nat.mod_eq_of_lt (Nat.lt_of_le_of_lt hle1 hnow)
  have hle2 : h * w * ch ≤ h * w * c := Nat.mul_le_mul_left _ (Nat.le_of_lt hch)
  have e2 : (h * w) % U32 * ch % U32 = h * w * ch := by
    rw [e1]
    exact Nat.mod_eq_of_lt (Nat.lt_of_le_of_lt hle2 hnow)
  have hbound : ∀ r col, r < h → col < w → h * w * ch + r * w + col < h * w * c := by
    intro r col hr hcol
    have h1 : r * w + w ≤ h * w := by
      have h0 : (r + 1) * w ≤ h * w := Nat.mul_le_mul_right w (by omega)
      calc r * w + w = (r + 1) * w := by ring
      _ ≤ h * w := h0
    have h2 : h * w * ch + h * w = h * w * (ch + 1) := by ring
    have h3 : h * w * (ch + 1) ≤ h * w * c := Nat.mul_le_mul_left _ (by omega)
    omega
  have e3 : ∀ r, r < h → (r * w) % U32 = r * w := by
    intro r hr
    have : r * w ≤ h * w := Nat.mul_le_mul_right w (Nat.le_of_lt hr)
    exact Nat.mod_eq_of_lt (by omega)
  have e4 : ∀ col, 0 < h → col < w → (h * w * ch + col) % U32 = h * w * ch + col := by
    intro col h0 hcol
    have hb2 := hbound 0 col h0 hcol
    exact Nat.mod_eq_of_lt (by omega)
  have eW : ∀ col r, col < w → r < h →
      (((h * w) % U32 * ch % U32 + col) % U32 + (r * w) % U32) % U32
        = h * w * ch + r * w + col := by
    intro col r hcol hr
    rw [e2, e3 r hr, e4 col (by omega) hcol]
    have : (h * w * ch + col) + r * w = h * w * ch + r * w + col := by omega
    rw [this]
    exact Nat.mod_eq_of_lt (Nat.lt_trans (hbound r col hr hcol) hnow)
  have eB : ∀ col r, col < w → cen ≤ r → r < h →
      (((h * w) % U32 * ch % U32 + col) % U32 + ((r - cen) * w) % U32) % U32
        = h * w * ch + (r - cen) * w + col := by
    intro col r hcol hc1 hr
    rw [e2, e3 (r - cen) (by omega), e4 col (by omega) hcol]
    have : (h * w * ch + col) + (r - cen) * w = h * w * ch + (r - cen) * w + col := by omega
    rw [this]
    exact Nat.mod_eq_of_lt (Nat.lt_trans (hbound (r - cen) col (by omega) hcol) hnow)
  have hD1 : ∀ r, 0 < w → cen ≤ r → r < cen + (usub h cen - cen) → r < h - cen := by
    intro r h0 h1 h2
    by_cases hh0 : h = 0
    · exfalso
      have hc0 : cen = 0 := by omega
      rw [hh0, hc0] at h2
      have hu : usub 0 0 = 0 := by decide
      omega
    · have hhle : h ≤ h * w * c := by
        have w1 : h ≤ h * w := Nat.le_mul_of_pos_right h (by omega)
        omega
      have hu : usub h cen = h - cen := usub_eq hch2 (by omega)
      rw [hu] at h2
      omega
  have hD2 : ∀ r, 0 < w → cen ≤ r → r < h - cen → r < cen + (usub h cen - cen) := by
    intro r h0 h1 h2
    have hh1 : 1 ≤ h := by omega
    have hhle : h ≤ h * w * c := by
      have w1 : h ≤ h * w := Nat.le_mul_of_pos_right h (by omega)
      omega
    rw [usub_eq hch2 (by omega)]
    omega
  have hbody : ∀ i s, 0 ≤ i → i < 0 + w → List.length (α := α) s = result.length →
      iterM (fun row res2 =>
          (convSumM image ((((h * w) % U32 * ch % U32 + i) % U32 +
              ((row - cen) * w) % U32) % U32) w kernel 0 0).bind
            (fun v => setM res2 ((((h * w) % U32 * ch % U32 + i) % U32 +
              (row * w) % U32) % U32) v))
        cen (usub h cen - cen) s
      = some (applyWrites ((List.range' cen (usub h cen - cen)).map fun row =>
          ((((h * w) % U32 * ch % U32 + i) % U32 + (row * w) % U32) % U32,
            kernelDot image ((((h * w) % U32 * ch % U32 + i) % U32 +
              ((row - cen) * w) % U32) % U32) w kernel 0 0)) s) := by
    intro i s hi0 hiw0 hs
    have hiw : i < w := by omega
    refine iterM_writes _ _ _ cen (usub h cen - cen) s ?_ ?_
    · intro row hr1 hr2
      have hrh2 : row < h - cen := hD1 row (by omega) hr1 hr2
      have hrh : row < h := by omega
      rw [eB i row hiw hr1 hrh]
      apply convSumM_eq_kernelDot
      intro k hk0 hkk
      have hb2 := hbound (row - cen + k) i (by omega) hiw
      have hdist : (row - cen + k) * w = (row - cen) * w + k * w := Nat.add_mul _ _ _
      constructor
      · omega
      · omega
    · intro row hr1 hr2
      have hrh2 : row < h - cen := hD1 row (by omega) hr1 hr2
      have hrh : row < h := by omega
      rw [eW i row hiw hrh, hs]
      have hb2 := hbound row i hrh hiw
      omega
  refine ⟨applyWrites ((List.range' 0 w).flatMap fun col =>
      (List.range' cen (usub h cen - cen)).map fun row =>
        ((((h * w) % U32 * ch % U32 + col) % U32 + (row * w) % U32) % U32,
          kernelDot image ((((h * w) % U32 * ch % U32 + col) % U32 +
            ((row - cen) * w) % U32) % U32) w kernel 0 0)) result, ?_, ?_, ?_⟩
  · rw [convolve1DVerticalPlanar_eq_of_valid hv, hcen, ← hcendef]
    rw [iterM_nested _ _ 0 w result result.length rfl hbody]
    rfl
  · exact applyWrites_length _ _
  · intro j hj
    refine applyWrites_2d_not_mem _ _ 0 w cen (usub h cen - cen) result j ?_
    intro o i h1 h2 h3 h4
    have h5 : i < h - cen := hD1 i (by omega) h3 h4
    rw [eW o i (by omega) (by omega)]
    exact hj o (by omega) i h3 h5

theorem convolve1DHorizontalInterleaved_eq_of_valid [Add α] [Mul α] [Zero α]
    {kernel image result : List α} {h w c ch : Nat}
    (hv : ConvValid kernel image result h w c ch) :
    convolve1DHorizontalInterleaved kernel image h w c ch result =
      (iterM (fun row res =>
          iterM (fun col res2 =>
              (convSumM image ((((row * (c * w % U32)) % U32 + ch) % U32 +
                  ((col - kernel.length % U32 / 2) * c) % U32) % U32) c kernel 0 0).bind
                (fun v => setM res2 ((((row * (c * w % U32)) % U32 + ch) % U32 +
                  (col * c) % U32) % U32) v))
            (kernel.length % U32 / 2)
            (usub w (kernel.length % U32 / 2) - kernel.length % U32 / 2) res)
        0 h result).map (fun r => (true, r)) := by
  obtain ⟨h1, h2, h3, h4⟩ := hv
  unfold convolve1DHorizontalInterleaved
  rw [if_neg (by omega), if_neg (by omega), if_neg (by omega), if_neg (by omega)]

/-- Full characterization of a validated, overflow-free run of
`convolve1DHorizontalInterleaved`. -/
theorem convolve1DHorizontalInterleaved_spec [Add α] [Mul α] [Zero α]
    (kernel image result : List α) (h w c ch : Nat)
    (hk : kernel.length < U32)
    (hodd : kernel.length % 2 = 1)
    (hch : ch < c)
    (hres : image.length ≤ result.length)
    (hcap : h * w * c ≤ image.length)
    (hnow : h * w * c < U32)
    (hcw : kernel.length / 2 ≤ w) :
    ∃ res, convolve1DHorizontalInterleaved kernel image h w c ch result = some (true, res) ∧
      res.length = result.length ∧
      (∀ r, r < h → ∀ col, kernel.length / 2 ≤ col → col < w - kernel.length / 2 →
        res[r * (w * c) + col * c + ch]? =
          some (kernelDot image (r * (w * c) + (col - kernel.length / 2) * c + ch) c
            kernel 0 0)) ∧
      (∀ j, (∀ r, r < h → ∀ col, kernel.length / 2 ≤ col → col < w - kernel.length / 2 →
          r * (w * c) + col * c + ch ≠ j) → res[j]? = result[j]?) := by
  have hv : ConvValid kernel image result h w c ch := by
    refine ⟨hodd, hch, hres, ?_⟩
    have e1 : (h * w) % U32 = h * w :=
      Nat.mod_eq_of_lt (Nat.lt_of_le_of_lt (Nat.le_mul_of_pos_right _ (by omega)) hnow)
    rw [e1, Nat.mod_eq_of_lt hnow]
    exact hcap
  have hcen : kernel.length % U32 = kernel.length := Nat.mod_eq_of_lt hk
  set cen := kernel.length / 2 with hcendef
  have hklen : kernel.length = 2 * cen + 1 := by omega
  have hwc_eq : h * (w * c) = h * w * c := by ring
  have hboundI : ∀ r col2, r < h → col2 < w →
      r * (w * c) + col2 * c + ch < h * w * c := by
    intro r col2 hr hcol
    have p1 : col2 * c + c ≤ w * c := by
      have p0 : (col2 + 1) * c ≤ w * c := Nat.mul_le_mul_right c (by omega)
      calc col2 * c + c = (col2 + 1) * c := by ring
      _ ≤ w * c := p0
    have p2 : r * (w * c) + w * c = (r + 1) * (w * c) := by ring
    have p3 : (r + 1) * (w * c) ≤ h * (w * c) := Nat.mul_le_mul_right _ (by omega)
    omega
  have e_cw : 0 < h → (c * w) % U32 = w * c := by
    intro h0
    rw [Nat.mul_comm c w]
    have p3 : 1 * (w * c) ≤ h * (w * c) := Nat.mul_le_mul_right _ (by omega)
    have p4 : 1 * (w * c) = w * c := by ring
    exact Nat.mod_eq_of_lt (by omega)
  have eRS : ∀ r, r < h → 0 < w → ((r * (c * w % U32)) % U32 + ch) % U32
      = r * (w * c) + ch := by
    intro r hr h0w
    rw [e_cw (by omega)]
    have q0 : r * (w * c) ≤ h * (w * c) := Nat.mul_le_mul_right _ (Nat.le_of_lt hr)
    have q1 : (r * (w * c)) % U32 = r * (w * c) := Nat.mod_eq_of_lt (by omega)
    rw [q1]
    have hb2 := hboundI r 0 hr h0w
    have q2 : (0 : Nat) * c = 0 := by ring
    exact Nat.mod_eq_of_lt (by omega)
  have e_colc : ∀ col2, 0 < h → col2 < w → (col2 * c) % U32 = col2 * c := by
    intro col2 h0 hcol
    have q0 : col2 * c ≤ w * c := Nat.mul_le_mul_right c (Nat.le_of_lt hcol)
    have q1 : 1 * (w * c) ≤ h * (w * c) := Nat.mul_le_mul_right _ (by omega)
    have q2 : 1 * (w * c) = w * c := by ring
    exact Nat.mod_eq_of_lt (by omega)
  have eW : ∀ r col, r < h → col < w →
      (((r * (c * w % U32)) % U32 + ch) % U32 + (col * c) % U32) % U32
        = r * (w * c) + col * c + ch := by
    intro r col hr hcol
    rw [eRS r hr (by omega), e_colc col (by omega) hcol]
    have hb2 := hboundI r col hr hcol
    have q3 : r * (w * c) + ch + col * c = r * (w * c) + col * c + ch := by omega
    rw [q3]
    exact Nat.mod_eq_of_lt (by omega)
  have eB : ∀ r col, r < h → cen ≤ col → col < w →
      (((r * (c * w % U32)) % U32 + ch) % U32 + ((col - cen) * c) % U32) % U32
        = r * (w * c) + (col - cen) * c + ch := by
    intro r col hr hc1 hcol
    rw [eRS r hr (by omega), e_colc (col - cen) (by omega) (by omega)]
    have hb2 := hboundI r (col - cen) hr (by omega)
    have q3 : r * (w * c) + ch + (col - cen) * c = r * (w * c) + (col - cen) * c + ch := by
      omega
    rw [q3]
    exact Nat.mod_eq_of_lt (by omega)
  have hD1 : ∀ col, 0 < h → cen ≤ col → col < cen + (usub w cen - cen) → col < w - cen := by
    intro col h0 h1 h2
    by_cases hw0 : w = 0
    · exfalso
      have hc0 : cen = 0 := by omega
      rw [hw0, hc0] at h2
      have hu : usub 0 0 = 0 := by decide
      omega
    · have hwle : w ≤ h * w * c := by
        have w1 : w ≤ h * w := Nat.le_mul_of_pos_left w (by omega)
        have w2 : h * w ≤ h * w * c := Nat.le_mul_of_pos_right _ (by omega)
        omega
      have hu : usub w cen = w - cen := usub_eq hcw (by omega)
      rw [hu] at h2
      omega
  have hD2 : ∀ col, 0 < h → cen ≤ col → col < w - cen → col < cen + (usub w cen - cen) := by
    intro col h0 h1 h2
    have hw1 : 1 ≤ w := by omega
    have hwle : w ≤ h * w * c := by
      have w1 : w ≤ h * w := Nat.le_mul_of_pos_left w (by omega)
      have w2 : h * w ≤ h * w * c := Nat.le_mul_of_pos_right _ (by omega)
      omega
    rw [usub_eq hcw (by omega)]
    omega
  have hbody : ∀ i s, 0 ≤ i → i < 0 + h → List.length (α := α) s = result.length →
      iterM (fun col res2 =>
          (convSumM image ((((i * (c * w % U32)) % U32 + ch) % U32 +
              ((col - cen) * c) % U32) % U32) c kernel 0 0).bind
            (fun v => setM res2 ((((i * (c * w % U32)) % U32 + ch) % U32 +
              (col * c) % U32) % U32) v))
        cen (usub w cen - cen) s
      = some (applyWrites ((List.range' cen (usub w cen - cen)).map fun col =>
          ((((i * (c * w % U32)) % U32 + ch) % U32 + (col * c) % U32) % U32,
            kernelDot image ((((i * (c * w % U32)) % U32 + ch) % U32 +
              ((col - cen) * c) % U32) % U32) c kernel 0 0)) s) := by
    intro i s hi0 hih0 hs
    have hih : i < h := by omega
    refine iterM_writes _ _ _ cen (usub w cen - cen) s ?_ ?_
    · intro col hc1 hc2
      have hcw2 : col < w - cen := hD1 col (by omega) hc1 hc2
      have hcolw : col < w := by omega
      rw [eB i col hih hc1 hcolw]
      apply convSumM_eq_kernelDot
      intro k hk0 hkk
      have hb2 := hboundI i (col - cen + k) hih (by omega)
      have hdist : (col - cen + k) * c = (col - cen) * c + k * c := Nat.add_mul _ _ _
      constructor
      · omega
      · omega
    · intro col hc1 hc2
      have hcw2 : col < w - cen := hD1 col (by omega) hc1 hc2
      have hcolw : col < w := by omega
      rw [eW i col hih hcolw, hs]
      have hb2 := hboundI i col hih hcolw
      omega
  refine ⟨applyWrites ((List.range' 0 h).flatMap fun row =>
      (List.range' cen (usub w cen - cen)).map fun col =>
        ((((row * (c * w % U32)) % U32 + ch) % U32 + (col * c) % U32) % U32,
          kernelDot image ((((row * (c * w % U32)) % U32 + ch) % U32 +
            ((col - cen) * c) % U32) % U32) c kernel 0 0)) result, ?_, ?_, ?_, ?_⟩
  · rw [convolve1DHorizontalInterleaved_eq_of_valid hv, hcen, ← hcendef]
    rw [iterM_nested _ _ 0 h result result.length rfl hbody]
    rfl
  · exact applyWrites_length _ _
  · intro r hr col hc1 hc2
    have hcolw : col < w := by omega
    rw [← eW r col hr hcolw, ← eB r col hr hc1 hcolw]
    refine applyWrites_2d_get _ _ 0 h cen (usub w cen - cen) result r col
      (by omega) (by omega) hc1 (hD2 col (by omega) hc1 hc2) ?_ ?_
    · rw [eW r col hr hcolw]
      have hb2 := hboundI r col hr hcolw
      omega
    · intro r2 col2 ha hb hcc hd hne12
      have hcw2 : col2 < w - cen := hD1 col2 (by omega) hcc hd
      rw [eW r2 col2 (by omega) (by omega), eW r col hr hcolw]
      intro heq
      have heq2 : r2 * (w * c) + col2 * c = r * (w * c) + col * c := by omega
      have hcc2 : col2 * c < w * c := Nat.mul_lt_mul_of_lt_of_le (by omega) (Nat.le_refl c)
        (by omega)
      have hcc3 : col * c < w * c := Nat.mul_lt_mul_of_lt_of_le hcolw (Nat.le_refl c)
        (by omega)
      have hij := row_col_inj hcc2 hcc3 heq2
      have hcol_eq : col2 = col := Nat.eq_of_mul_eq_mul_right (by omega) hij.2
      obtain ⟨hija, hijb⟩ := And.intro hij.1 hcol_eq
      omega
  · intro j hj
    refine applyWrites_2d_not_mem _ _ 0 h cen (usub w cen - cen) result j ?_
    intro o i h1 h2 h3 h4
    have h5 : i < w - cen := hD1 i (by omega) h3 h4
    rw [eW o i (by omega) (by omega)]
    exact hj o (by omega) i h3 h5

theorem convolve1DVerticalInterleaved_eq_of_valid [Add α] [Mul α] [Zero α]
    {kernel image result : List α} {h w c ch : Nat}
    (hv : ConvValid kernel image result h w c ch) :
    convolve1DVerticalInterleaved kernel image h w c ch result =
      (iterM (fun col res =>
          iterM (fun row res2 =>
              (convSumM image ((((col * c) % U32 + ch) % U32 +
                  ((row - kernel.length % U32 / 2) * (c * w % U32)) % U32) % U32)
                (c * w % U32) kernel 0 0).bind
                (fun v => setM res2 ((((col * c) % U32 + ch) % U32 +
                  (row * (c * w % U32)) % U32) % U32) v))
            (kernel.length % U32 / 2)
            (usub h (kernel.length % U32 / 2) - kernel.length % U32 / 2) res)
        0 w result).map (fun r => (true, r)) := by
  obtain ⟨h1, h2, h3, h4⟩ := hv
  unfold convolve1DVerticalInterleaved
  rw [if_neg (by omega), if_neg (by omega), if_neg (by omega), if_neg (by omega)]

/-- Characterization of a validated, overflow-free run of
`convolve1DVerticalInterleaved`: success, unchanged length, and a frame
property for every position outside the written interior of the selected
channel. -/
theorem convolve1DVerticalInterleaved_spec [Add α] [Mul α] [Zero α]
    (kernel image result : List α) (h w c ch : Nat)
    (hk : kernel.length < U32)
    (hodd : kernel.length % 2 = 1)
    (hch : ch < c)
    (hres : image.length ≤ result.length)
    (hcap : h * w * c ≤ image.length)
    (hnow : h * w * c < U32)
    (hch2 : kernel.length / 2 ≤ h) :
    ∃ res, convolve1DVerticalInterleaved kernel image h w c ch result = some (true, res) ∧
      res.length = result.length ∧
      (∀ j, (∀ col, col < w → ∀ r, kernel.length / 2 ≤ r → r < h - kernel.length / 2 →
          r * (w * c) + col * c + ch ≠ j) → res[j]? = result[j]?) := by
  have hv : ConvValid kernel image result h w c ch := by
    refine ⟨hodd, hch, hres, ?_⟩
    have e1 : (h * w) % U32 = h * w :=
      Nat.mod_eq_of_lt (Nat.lt_of_le_of_lt (Nat.le_mul_of_pos_right _ (by omega)) hnow)
    rw [e1, Nat.mod_eq_of_lt hnow]
    exact hcap
  have hcen : kernel.length % U32 = kernel.length := Nat.mod_eq_of_lt hk
  set cen := kernel.length / 2 with hcendef
  have hklen : kernel.length = 2 * cen + 1 := by omega
  have hwc_eq : h * (w * c) = h * w * c := by ring
  have hboundI : ∀ r col2, r < h → col2 < w →
      r * (w * c) + col2 * c + ch < h * w * c := by
    intro r col2 hr hcol
    have p1 : col2 * c + c ≤ w * c := by
      have p0 : (col2 + 1) * c ≤ w * c := Nat.mul_le_mul_right c (by omega)
      calc col2 * c + c = (col2 + 1) * c := by ring
      _ ≤ w * c := p0
    have p2 : r * (w * c) + w * c = (r + 1) * (w * c) := by ring
    have p3 : (r + 1) * (w * c) ≤ h * (w * c) := Nat.mul_le_mul_right _ (by omega)
    omega
  have e_cw : 0 < h → (c * w) % U32 = w * c := by
    intro h0
    rw [Nat.mul_comm c w]
    have p3 : 1 * (w * c) ≤ h * (w * c) := Nat.mul_le_mul_right _ (by omega)
    have p4 : 1 * (w * c) = w * c := by ring
    exact Nat.mod_eq_of_lt (by omega)
  have e_colc : ∀ col2, 0 < h → col2 < w → (col2 * c) % U32 = col2 * c := by
    intro col2 h0 hcol
    have q0 : col2 * c ≤ w * c := Nat.mul_le_mul_right c (Nat.le_of_lt hcol)
    have q1 : 1 * (w * c) ≤ h * (w * c) := Nat.mul_le_mul_right _ (by omega)
    have q2 : 1 * (w * c) = w * c := by ring
    exact Nat.mod_eq_of_lt (by omega)
  have eCS : ∀ col2, 0 < h → col2 < w → ((col2 * c) % U32 + ch) % U32 = col2 * c + ch := by
    intro col2 h0 hcol
    rw [e_colc col2 h0 hcol]
    have hb2 := hboundI 0 col2 h0 hcol
    have q2 : (0 : Nat) * (w * c) = 0 := by ring
    exact Nat.mod_eq_of_lt (by omega)
  have e_rs : ∀ r, r < h → (r * (c * w % U32)) % U32 = r * (w * c) := by
    intro r hr
    rw [e_cw (by omega)]
    have q0 : r * (w * c) ≤ h * (w * c) := Nat.mul_le_mul_right _ (Nat.le_of_lt hr)
    exact Nat.mod_eq_of_lt (by omega)
  have eW : ∀ col r, col < w → r < h →
      (((col * c) % U32 + ch) % U32 + (r * (c * w % U32)) % U32) % U32
        = r * (w * c) + col * c + ch := by
    intro col r hcol hr
    rw [eCS col (by omega) hcol, e_rs r hr]
    have hb2 := hboundI r col hr hcol
    have q3 : col * c + ch + r * (w * c) = r * (w * c) + col * c + ch := by omega
    rw [q3]
    exact Nat.mod_eq_of_lt (by omega)
  have eB : ∀ col r, col < w → cen ≤ r → r < h →
      (((col * c) % U32 + ch) % U32 + ((r - cen) * (c * w % U32)) % U32) % U32
        = (r - cen) * (w * c) + col * c + ch := by
    intro col r hcol hc1 hr
    rw [eCS col (by omega) hcol, e_rs (r - cen) (by omega)]
    have hb2 := hboundI (r - cen) col (by omega) hcol
    have q3 : col * c + ch + (r - cen) * (w * c) = (r - cen) * (w * c) + col * c + ch := by
      omega
    rw [q3]
    exact Nat.mod_eq_of_lt (by omega)
  have hD1 : ∀ r, 0 < w → cen ≤ r → r < cen + (usub h cen - cen) → r < h - cen := by
    intro r h0 h1 h2
    by_cases hh0 : h = 0
    · exfalso
      have hc0 : cen = 0 := by omega
      rw [hh0, hc0] at h2
      have hu : usub 0 0 = 0 := by decide
      omega
    · have hhle : h ≤ h * w * c := by
        have w1 : h ≤ h * w := Nat.le_mul_of_pos_right h (by omega)
        have w2 : h * w ≤ h * w * c := Nat.le_mul_of_pos_right _ (by omega)
        omega
      have hu : usub h cen = h - cen := usub_eq hch2 (by omega)
      rw [hu] at h2
      omega
  have hD2 : ∀ r, 0 < w → cen ≤ r → r < h - cen → r < cen + (usub h cen - cen) := by
    intro r h0 h1 h2
    have hh1 : 1 ≤ h := by omega
    have hhle : h ≤ h * w * c := by
      have w1 : h ≤ h * w := Nat.le_mul_of_pos_right h (by omega)
      have w2 : h * w ≤ h * w * c := Nat.le_mul_of_pos_right _ (by omega)
      omega
    rw [usub_eq hch2 (by omega)]
    omega
  have hbody : ∀ i s, 0 ≤ i → i < 0 + w → List.length (α := α) s = result.length →
      iterM (fun row res2 =>
          (convSumM image ((((i * c) % U32 + ch) % U32 +
              ((row - cen) * (c * w % U32)) % U32) % U32) (c * w % U32) kernel 0 0).bind
            (fun v => setM res2 ((((i * c) % U32 + ch) % U32 +
              (row * (c * w % U32)) % U32) % U32) v))
        cen (usub h cen - cen) s
      = some (applyWrites ((List.range' cen (usub h cen - cen)).map fun row =>
          ((((i * c) % U32 + ch) % U32 + (row * (c * w % U32)) % U32) % U32,
            kernelDot image ((((i * c) % U32 + ch) % U32 +
              ((row - cen) * (c * w % U32)) % U32) % U32) (c * w % U32) kernel 0 0)) s) := by
    intro i s hi0 hiw0 hs
    have hiw : i < w := by omega
    refine iterM_writes _ _ _ cen (usub h cen - cen) s ?_ ?_
    · intro row hr1 hr2
      have hrh2 : row < h - cen := hD1 row (by omega) hr1 hr2
      have hrh : row < h := by omega
      rw [eB i row hiw hr1 hrh, e_cw (by omega)]
      apply convSumM_eq_kernelDot
      intro k hk0 hkk
      have hb2 := hboundI (row - cen + k) i (by omega) hiw
      have hdist : (row - cen + k) * (w * c) = (row - cen) * (w * c) + k * (w * c) :=
        Nat.add_mul _ _ _
      constructor
      · omega
      · omega
    · intro row hr1 hr2
      have hrh2 : row < h - cen := hD1 row (by omega) hr1 hr2
      have hrh : row < h := by omega
      rw [eW i row hiw hrh, hs]
      have hb2 := hboundI row i hrh hiw
      omega
  refine ⟨applyWrites ((List.range' 0 w).flatMap fun col =>
      (List.range' cen (usub h cen - cen)).map fun row =>
        ((((col * c) % U32 + ch) % U32 + (row * (c * w % U32)) % U32) % U32,
          kernelDot image ((((col * c) % U32 + ch) % U32 +
            ((row - cen) * (c * w % U32)) % U32) % U32) (c * w % U32) kernel 0 0))
      result, ?_, ?_, ?_⟩
  · rw [convolve1DVerticalInterleaved_eq_of_valid hv, hcen, ← hcendef]
    rw [iterM_nested _ _ 0 w result result.length rfl hbody]
    rfl
  · exact applyWrites_length _ _
  · intro j hj
    refine applyWrites_2d_not_mem _ _ 0 w cen (usub h cen - cen) result j ?_
    intro o i h1 h2 h3 h4
    have h5 : i < h - cen := hD1 i (by omega) h3 h4
    rw [eW o i (by omega) (by omega)]
    exact hj o (by omega) i h3 h5

theorem getElem?_eq_some_getD [Inhabited α] (l : List α) (i : Nat) (h : i < l.length) :
    l[i]? = some (l.getD i default) := by
  rw [List.getD_eq_getElem?_getD, List.getElem?_eq_getElem h]
  rfl

/-- Value written at position `wIdx o p q` by a triply nested write loop,
provided no later iteration (in iteration order) writes the same position. -/
theorem applyWrites_3d_get (wIdx : Nat → Nat → Nat → Nat) (pv : Nat → Nat → Nat → α)
    (n1 n2 n3 : Nat) (l : List α) (o p q : Nat)
    (ho : o < n1) (hp : p < n2) (hq : q < n3)
    (hlt : wIdx o p q < l.length)
    (hne : ∀ o2 p2 q2, o2 < n1 → p2 < n2 → q2 < n3 →
        (o < o2 ∨ (o2 = o ∧ (p < p2 ∨ (p2 = p ∧ q < q2)))) →
        wIdx o2 p2 q2 ≠ wIdx o p q) :
    (applyWrites ((List.range' 0 n1).flatMap fun o2 =>
        (List.range' 0 n2).flatMap fun p2 =>
          (List.range' 0 n3).map fun q2 => (wIdx o2 p2 q2, pv o2 p2 q2)) l)[wIdx o p q]?
      = some (pv o p q) := by
  have hmid3 : (List.range' 0 n3).map (fun q2 => (wIdx o p q2, pv o p q2))
      = (List.range' 0 (q - 0)).map (fun q2 => (wIdx o p q2, pv o p q2)) ++
        (wIdx o p q, pv o p q) ::
          (List.range' (q + 1) (0 + n3 - q - 1)).map (fun q2 => (wIdx o p q2, pv o p q2)) := by
    rw [range'_split (Nat.zero_le q) (by omega), List.map_append, List.map_cons]
  have hmid2 : (List.range' 0 n2).flatMap
        (fun p2 => (List.range' 0 n3).map fun q2 => (wIdx o p2 q2, pv o p2 q2))
      = (List.range' 0 (p - 0)).flatMap
          (fun p2 => (List.range' 0 n3).map fun q2 => (wIdx o p2 q2, pv o p2 q2)) ++
        ((List.range' 0 n3).map fun q2 => (wIdx o p q2, pv o p q2)) ++
        (List.range' (p + 1) (0 + n2 - p - 1)).flatMap
          (fun p2 => (List.range' 0 n3).map fun q2 => (wIdx o p2 q2, pv o p2 q2)) := by
    rw [range'_split (Nat.zero_le p) (by omega), List.flatMap_append, List.flatMap_cons]
    simp [List.append_assoc]
  have hws : (List.range' 0 n1).flatMap (fun o2 =>
        (List.range' 0 n2).flatMap fun p2 =>
          (List.range' 0 n3).map fun q2 => (wIdx o2 p2 q2, pv o2 p2 q2))
      = ((List.range' 0 (o - 0)).flatMap (fun o2 =>
            (List.range' 0 n2).flatMap fun p2 =>
              (List.range' 0 n3).map fun q2 => (wIdx o2 p2 q2, pv o2 p2 q2)) ++
          ((List.range' 0 (p - 0)).flatMap
            (fun p2 => (List.range' 0 n3).map fun q2 => (wIdx o p2 q2, pv o p2 q2)) ++
          (List.range' 0 (q - 0)).map (fun q2 => (wIdx o p q2, pv o p q2)))) ++
        (wIdx o p q, pv o p q) ::
          (((List.range' (q + 1) (0 + n3 - q - 1)).map (fun q2 => (wIdx o p q2, pv o p q2)) ++
            (List.range' (p + 1) (0 + n2 - p - 1)).flatMap
              (fun p2 => (List.range' 0 n3).map fun q2 => (wIdx o p2 q2, pv o p2 q2))) ++
          (List.range' (o + 1) (0 + n1 - o - 1)).flatMap (fun o2 =>
            (List.range' 0 n2).flatMap fun p2 =>
              (List.range' 0 n3).map fun q2 => (wIdx o2 p2 q2, pv o2 p2 q2))) := by
    rw [range'_split (Nat.zero_le o) (by omega), List.flatMap_append, List.flatMap_cons,
      hmid2, hmid3]
    simp [List.append_assoc]
  rw [hws]
  apply applyWrites_getElem?_last _ _ _ _ _ hlt
  intro x hx
  rcases List.mem_append.mp hx with hx1 | hx2
  · rcases List.mem_append.mp hx1 with hy1 | hy2
    · rcases List.mem_map.mp hy1 with ⟨q2, hq2m, rfl⟩
      rcases mem_range1.mp hq2m with ⟨ha, hb⟩
      exact hne o p q2 ho hp (by omega) (Or.inr ⟨rfl, Or.inr ⟨rfl, by omega⟩⟩)
    · rcases List.mem_flatMap.mp hy2 with ⟨p2, hp2m, hxm⟩
      rcases mem_range1.mp hp2m with ⟨ha, hb⟩
      rcases List.mem_map.mp hxm with ⟨q2, hq2m, rfl⟩
      rcases mem_range1.mp hq2m with ⟨hc, hd⟩
      exact hne o p2 q2 ho (by omega) (by omega) (Or.inr ⟨rfl, Or.inl (by omega)⟩)
  · rcases List.mem_flatMap.mp hx2 with ⟨o2, ho2m, hxm⟩
    rcases mem_range1.mp ho2m with ⟨ha, hb⟩
    rcases List.mem_flatMap.mp hxm with ⟨p2, hp2m, hxm2⟩
    rcases mem_range1.mp hp2m with ⟨hc, hd⟩
    rcases List.mem_map.mp hxm2 with ⟨q2, hq2m, rfl⟩
    rcases mem_range1.mp hq2m with ⟨he, hf⟩
    exact hne o2 p2 q2 (by omega) (by omega) (by omega) (Or.inl (by omega))

/-- Positions never written by a triply nested write loop keep their value. -/
theorem applyWrites_3d_not_mem (wIdx : Nat → Nat → Nat → Nat) (pv : Nat → Nat → Nat → α)
    (n1 n2 n3 : Nat) (l : List α) (j : Nat)
    (hj : ∀ o p q, o < n1 → p < n2 → q < n3 → wIdx o p q ≠ j) :
    (applyWrites ((List.range' 0 n1).flatMap fun o2 =>
        (List.range' 0 n2).flatMap fun p2 =>
          (List.range' 0 n3).map fun q2 => (wIdx o2 p2 q2, pv o2 p2 q2)) l)[j]?
      = l[j]? := by
  apply applyWrites_getElem?_not_mem
  intro x hx
  rcases List.mem_flatMap.mp hx with ⟨o2, ho2m, hxm⟩
  rcases mem_range1.mp ho2m with ⟨ha, hb⟩
  rcases List.mem_flatMap.mp hxm with ⟨p2, hp2m, hxm2⟩
  rcases mem_range1.mp hp2m with ⟨hc, hd⟩
  rcases List.mem_map.mp hxm2 with ⟨q2, hq2m, rfl⟩
  rcases mem_range1.mp hq2m with ⟨he, hf⟩
  exact hj o2 p2 q2 (by omega) (by omega) (by omega)

theorem transposePlanar_eq_of_valid {src dst : List α} {h w c : Nat}
    (hv : TransValid src h w c dst) :
    transposePlanar src h w c dst =
      (iterM (fun ch2 d =>
          iterM (fun r d2 =>
              iterM (fun col d3 =>
                  (src[(((ch2 * h) % U32 * w % U32 + (r * w) % U32) % U32 + col) % U32]?).bind
                    (fun v => setM d3
                      ((((ch2 * h) % U32 * w % U32 + (col * h) % U32) % U32 + r) % U32) v))
                0 w d2)
            0 h d)
        0 c dst).map (fun r => (true, r)) := by
  obtain ⟨h1, h2⟩ := hv
  unfold transposePlanar
  rw [if_neg (by omega), if_neg (by omega)]

/-- A validated run of `transposePlanar` whose raw (32-bit) read and write
indices all stay inside the buffers completes and performs exactly the listed
writes, in loop order. -/
theorem transposePlanar_run [Inhabited α] (src dst : List α) (h w c : Nat)
    (hv : TransValid src h w c dst)
    (hin : ∀ ch2 r col, ch2 < c → r < h → col < w →
      (((ch2 * h) % U32 * w % U32 + (r * w) % U32) % U32 + col) % U32 < src.length ∧
      (((ch2 * h) % U32 * w % U32 + (col * h) % U32) % U32 + r) % U32 < dst.length) :
    transposePlanar src h w c dst = some (true, applyWrites
      ((List.range' 0 c).flatMap fun ch2 =>
        (List.range' 0 h).flatMap fun r =>
          (List.range' 0 w).map fun col =>
            ((((ch2 * h) % U32 * w % U32 + (col * h) % U32) % U32 + r) % U32,
              src.getD ((((ch2 * h) % U32 * w % U32 + (r * w) % U32) % U32 + col) % U32)
                default)) dst) := by
  rw [transposePlanar_eq_of_valid hv]
  have hbody : ∀ ch2 d, 0 ≤ ch2 → ch2 < 0 + c → List.length (α := α) d = dst.length →
      iterM (fun r d2 =>
          iterM (fun col d3 =>
              (src[(((ch2 * h) % U32 * w % U32 + (r * w) % U32) % U32 + col) % U32]?).bind
                (fun v => setM d3
                  ((((ch2 * h) % U32 * w % U32 + (col * h) % U32) % U32 + r) % U32) v))
            0 w d2)
        0 h d
      = some (applyWrites ((List.range' 0 h).flatMap fun r =>
          (List.range' 0 w).map fun col =>
            ((((ch2 * h) % U32 * w % U32 + (col * h) % U32) % U32 + r) % U32,
              src.getD ((((ch2 * h) % U32 * w % U32 + (r * w) % U32) % U32 + col) % U32)
                default)) d) := by
    intro ch2 d hc0 hcc hd
    have hrow : ∀ r d2, 0 ≤ r → r < 0 + h → List.length (α := α) d2 = dst.length →
        iterM (fun col d3 =>
            (src[(((ch2 * h) % U32 * w % U32 + (r * w) % U32) % U32 + col) % U32]?).bind
              (fun v => setM d3
                ((((ch2 * h) % U32 * w % U32 + (col * h) % U32) % U32 + r) % U32) v))
          0 w d2
        = some (applyWrites ((List.range' 0 w).map fun col =>
            ((((ch2 * h) % U32 * w % U32 + (col * h) % U32) % U32 + r) % U32,
              src.getD ((((ch2 * h) % U32 * w % U32 + (r * w) % U32) % U32 + col) % U32)
                default)) d2) := by
      intro r d2 hr0 hrh hd2
      refine iterM_writes _ _ _ 0 w d2 ?_ ?_
      · intro col hc1 hc2
        exact getElem?_eq_some_getD src _ (hin ch2 r col (by omega) (by omega) (by omega)).1
      · intro col hc1 hc2
        rw [hd2]
        exact (hin ch2 r col (by omega) (by omega) (by omega)).2
    exact iterM_nested _ _ 0 h d dst.length hd hrow
  rw [iterM_nested _ _ 0 c dst dst.length rfl hbody]
  rfl


/-- Characterization of a validated, overflow-free run of `transposePlanar`:
it succeeds and writes `dst[chStart + col*H + row] = src[chStart + row*W + col]`
for every channel and every source row/column. -/
theorem transposePlanar_spec [Inhabited α] (src dst : List α) (h w c : Nat)
    (hsd : src.length ≤ dst.length)
    (hcap : h * w * c ≤ src.length)
    (hnow : h * w * c < U32) :
    ∃ d2, transposePlanar src h w c dst = some (true, d2) ∧
      d2.length = dst.length ∧
      (∀ ch2 r col, ch2 < c → r < h → col < w →
        d2[ch2 * (h * w) + col * h + r]? = src[ch2 * (h * w) + r * w + col]?) := by
  have hhw_eq : c * (h * w) = h * w * c := by ring
  have hboundT : ∀ ch2 r col, ch2 < c → r < h → col < w →
      ch2 * (h * w) + col * h + r < h * w * c ∧ ch2 * (h * w) + r * w + col < h * w * c := by
    intro ch2 r col hc2 hr hcol
    have p1 : col * h + h ≤ w * h := by
      have p0 : (col + 1) * h ≤ w * h := Nat.mul_le_mul_right h (by omega)
      calc col * h + h = (col + 1) * h := by ring
      _ ≤ w * h := p0
    have p1b : r * w + w ≤ h * w := by
      have p0 : (r + 1) * w ≤ h * w := Nat.mul_le_mul_right w (by omega)
      calc r * w + w = (r + 1) * w := by ring
      _ ≤ h * w := p0
    have p2 : ch2 * (h * w) + h * w = (ch2 + 1) * (h * w) := by ring
    have p3 : (ch2 + 1) * (h * w) ≤ c * (h * w) := Nat.mul_le_mul_right _ (by omega)
    have p4 : w * h = h * w := by ring
    omega
  have hv : TransValid src h w c dst := by
    refine ⟨hsd, ?_⟩
    by_cases hc0 : c = 0
    · subst hc0
      simp
    · have e1 : (h * w) % U32 = h * w :=
        Nat.mod_eq_of_lt (Nat.lt_of_le_of_lt (Nat.le_mul_of_pos_right _ (by omega)) hnow)
      rw [e1, Nat.mod_eq_of_lt hnow]
      exact hcap
  have t1 : ∀ ch2, ch2 < c → 0 < h → 0 < w → (ch2 * h) % U32 = ch2 * h := by
    intro ch2 hc2 h0 w0
    have q1 : ch2 * h ≤ c * h := Nat.mul_le_mul_right h (Nat.le_of_lt hc2)
    have q2 : c * h * 1 ≤ c * h * w := Nat.mul_le_mul_left _ (by omega)
    have q3 : c * h * 1 = c * h := by ring
    have q4 : c * h * w = h * w * c := by ring
    exact Nat.mod_eq_of_lt (by omega)
  have t2 : ∀ ch2, ch2 < c → 0 < h → 0 < w →
      (ch2 * h) % U32 * w % U32 = ch2 * (h * w) := by
    intro ch2 hc2 h0 w0
    rw [t1 ch2 hc2 h0 w0]
    have q1 : ch2 * h * w = ch2 * (h * w) := by ring
    rw [q1]
    have q2 : ch2 * (h * w) ≤ c * (h * w) := Nat.mul_le_mul_right _ (Nat.le_of_lt hc2)
    exact Nat.mod_eq_of_lt (by omega)
  have t3 : ∀ r, 0 < c → r < h → (r * w) % U32 = r * w := by
    intro r hc1 hr
    have q1 : r * w ≤ h * w := Nat.mul_le_mul_right w (Nat.le_of_lt hr)
    have q2 : h * w * 1 ≤ h * w * c := Nat.mul_le_mul_left _ (by omega)
    have q3 : h * w * 1 = h * w := by ring
    exact Nat.mod_eq_of_lt (by omega)
  have t6 : ∀ col, 0 < c → col < w → (col * h) % U32 = col * h := by
    intro col hc1 hcol
    have q1 : col * h ≤ w * h := Nat.mul_le_mul_right h (Nat.le_of_lt hcol)
    have q4 : w * h = h * w := by ring
    have q2 : h * w * 1 ≤ h * w * c := Nat.mul_le_mul_left _ (by omega)
    have q3 : h * w * 1 = h * w := by ring
    exact Nat.mod_eq_of_lt (by omega)
  have eR : ∀ ch2 r col, ch2 < c → r < h → col < w →
      (((ch2 * h) % U32 * w % U32 + (r * w) % U32) % U32 + col) % U32
        = ch2 * (h * w) + r * w + col := by
    intro ch2 r col hc2 hr hcol
    rw [t2 ch2 hc2 (by omega) (by omega), t3 r (by omega) hr]
    have hb := (hboundT ch2 r col hc2 hr hcol).2
    rw [Nat.mod_eq_of_lt (a := ch2 * (h * w) + r * w) (by omega)]
    exact Nat.mod_eq_of_lt (by omega)
  have eT : ∀ ch2 r col, ch2 < c → r < h → col < w →
      (((ch2 * h) % U32 * w % U32 + (col * h) % U32) % U32 + r) % U32
        = ch2 * (h * w) + col * h + r := by
    intro ch2 r col hc2 hr hcol
    rw [t2 ch2 hc2 (by omega) (by omega), t6 col (by omega) hcol]
    have hb := (hboundT ch2 r col hc2 hr hcol).1
    rw [Nat.mod_eq_of_lt (a := ch2 * (h * w) + col * h) (by omega)]
    exact Nat.mod_eq_of_lt (by omega)
  have hin : ∀ ch2 r col, ch2 < c → r < h → col < w →
      (((ch2 * h) % U32 * w % U32 + (r * w) % U32) % U32 + col) % U32 < src.length ∧
      (((ch2 * h) % U32 * w % U32 + (col * h) % U32) % U32 + r) % U32 < dst.length := by
    intro ch2 r col hc2 hr hcol
    have hb := hboundT ch2 r col hc2 hr hcol
    rw [eR ch2 r col hc2 hr hcol, eT ch2 r col hc2 hr hcol]
    constructor
    · omega
    · omega
  refine ⟨_, transposePlanar_run src dst h w c hv hin, applyWrites_length _ _, ?_⟩
  intro ch2 r col hc2 hr hcol
  have hlt : (((ch2 * h) % U32 * w % U32 + (col * h) % U32) % U32 + r) % U32 < dst.length :=
    (hin ch2 r col hc2 hr hcol).2
  have hne : ∀ o2 p2 q2, o2 < c → p2 < h → q2 < w →
      (ch2 < o2 ∨ (o2 = ch2 ∧ (r < p2 ∨ (p2 = r ∧ col < q2)))) →
      (((o2 * h) % U32 * w % U32 + (q2 * h) % U32) % U32 + p2) % U32 ≠
        (((ch2 * h) % U32 * w % U32 + (col * h) % U32) % U32 + r) % U32 := by
    intro o2 p2 q2 ho2 hp2 hq2 hlater
    rw [eT o2 p2 q2 ho2 hp2 hq2, eT ch2 r col hc2 hr hcol]
    intro heq
    have heq2 : o2 * (h * w) + (q2 * h + p2) = ch2 * (h * w) + (col * h + r) := by omega
    have hb1 : q2 * h + p2 < h * w := by
      have p0 : (q2 + 1) * h ≤ w * h := Nat.mul_le_mul_right h (by omega)
      have p1 : q2 * h + h = (q2 + 1) * h := by ring
      have p4 : w * h = h * w := by ring
      omega
    have hb2 : col * h + r < h * w := by
      have p0 : (col + 1) * h ≤ w * h := Nat.mul_le_mul_right h (by omega)
      have p1 : col * h + h = (col + 1) * h := by ring
      have p4 : w * h = h * w := by ring
      omega
    have hij := row_col_inj hb1 hb2 heq2
    have hij2 := row_col_inj hp2 hr (show q2 * h + p2 = col * h + r by omega)
    omega
  rw [← eT ch2 r col hc2 hr hcol, ← eR ch2 r col hc2 hr hcol]
  rw [getElem?_eq_some_getD src _ (hin ch2 r col hc2 hr hcol).1]
  exact applyWrites_3d_get
    (fun o p q => (((o * h) % U32 * w % U32 + (q * h) % U32) % U32 + p) % U32)
    (fun o p q => src.getD ((((o * h) % U32 * w % U32 + (p * w) % U32) % U32 + q) % U32)
      default)
    c h w dst ch2 r col hc2 hr hcol hlt hne

/-! ### Helper lemmas for the claim theorems -/

theorem iterM_inner_zero {σ : Type u} (inner : Nat → Nat → σ → Option σ)
    (S start n : Nat) (s : σ) :
    iterM (fun o t => iterM (inner o) S 0 t) start n s = some s := by
  induction n generalizing start s with
  | zero => rfl
  | succ n ih =>
    rw [iterM_succ]
    exact ih (start + 1) s

theorem convolve1DHorizontalPlanar_not_valid [Add α] [Mul α] [Zero α]
    {kernel image result : List α} {h w c ch : Nat}
    (hnv : ¬ConvValid kernel image result h w c ch) :
    convolve1DHorizontalPlanar kernel image h w c ch result = some (false, result) := by
  unfold ConvValid at hnv
  unfold convolve1DHorizontalPlanar
  by_cases h1 : kernel.length % 2 = 1
  · rw [if_neg (by omega)]
    by_cases h2 : ch < c
    · rw [if_neg (by omega)]
      by_cases h3 : image.length ≤ result.length
      · rw [if_neg (by omega)]
        have h4 : ¬((h * w) % U32 * c % U32 ≤ image.length) := fun h4 => hnv ⟨h1, h2, h3, h4⟩
        rw [if_pos (by omega)]
      · rw [if_pos (by omega)]
    · rw [if_pos (by omega)]
  · rw [if_pos (by omega)]

theorem convolve1DVerticalPlanar_not_valid [Add α] [Mul α] [Zero α]
    {kernel image result : List α} {h w c ch : Nat}
    (hnv : ¬ConvValid kernel image result h w c ch) :
    convolve1DVerticalPlanar kernel image h w c ch result = some (false, result) := by
  unfold ConvValid at hnv
  unfold convolve1DVerticalPlanar
  by_cases h1 : kernel.length % 2 = 1
  · rw [if_neg (by omega)]
    by_cases h2 : ch < c
    · rw [if_neg (by omega)]
      by_cases h3 : image.length ≤ result.length
      · rw [if_neg (by omega)]
        have h4 : ¬((h * w) % U32 * c % U32 ≤ image.length) := fun h4 => hnv ⟨h1, h2, h3, h4⟩
        rw [if_pos (by omega)]
      · rw [if_pos (by omega)]
    · rw [if_pos (by omega)]
  · rw [if_pos (by omega)]

theorem convolve1DHorizontalInterleaved_not_valid [Add α] [Mul α] [Zero α]
    {kernel image result : List α} {h w c ch : Nat}
    (hnv : ¬ConvValid kernel image result h w c ch) :
    convolve1DHorizontalInterleaved kernel image h w c ch result = some (false, result) := by
  unfold ConvValid at hnv
  unfold convolve1DHorizontalInterleaved
  by_cases h1 : kernel.length % 2 = 1
  · rw [if_neg (by omega)]
    by_cases h2 : ch < c
    · rw [if_neg (by omega)]
      by_cases h3 : image.length ≤ result.length
      · rw [if_neg (by omega)]
        have h4 : ¬((h * w) % U32 * c % U32 ≤ image.length) := fun h4 => hnv ⟨h1, h2, h3, h4⟩
        rw [if_pos (by omega)]
      · rw [if_pos (by omega)]
    · rw [if_pos (by omega)]
  · rw [if_pos (by omega)]

theorem convolve1DVerticalInterleaved_not_valid [Add α] [Mul α] [Zero α]
    {kernel image result : List α} {h w c ch : Nat}
    (hnv : ¬ConvValid kernel image result h w c ch) :
    convolve1DVerticalInterleaved kernel image h w c ch result = some (false, result) := by
  unfold ConvValid at hnv
  unfold convolve1DVerticalInterleaved
  by_cases h1 : kernel.length % 2 = 1
  · rw [if_neg (by omega)]
    by_cases h2 : ch < c
    · rw [if_neg (by omega)]
      by_cases h3 : image.length ≤ result.length
      · rw [if_neg (by omega)]
        have h4 : ¬((h * w) % U32 * c % U32 ≤ image.length) := fun h4 => hnv ⟨h1, h2, h3, h4⟩
        rw [if_pos (by omega)]
      · rw [if_pos (by omega)]
    · rw [if_pos (by omega)]
  · rw [if_pos (by omega)]

theorem transposePlanar_not_valid {src dst : List α} {h w c : Nat}
    (hnv : ¬TransValid src h w c dst) :
    transposePlanar src h w c dst = some (false, dst) := by
  unfold TransValid at hnv
  unfold transposePlanar
  by_cases h1 : src.length ≤ dst.length
  · rw [if_neg (by omega)]
    have h2 : ¬((h * w) % U32 * c % U32 ≤ src.length) := fun h2 => hnv ⟨h1, h2⟩
    rw [if_pos (by omega)]
  · rw [if_pos (by omega)]

theorem kernelDot_congr [Add α] [Mul α] [Zero α] (imgA imgB : List α)
    (baseA strideA baseB strideB : Nat) (kernel : List α) (k0 : Nat) (acc : α)
    (hr : ∀ k, k0 ≤ k → k < k0 + kernel.length →
      imgA.getD (baseA + k * strideA) 0 = imgB.getD (baseB + k * strideB) 0) :
    kernelDot imgA baseA strideA kernel k0 acc
      = kernelDot imgB baseB strideB kernel k0 acc := by
  induction kernel generalizing k0 acc with
  | nil => rfl
  | cons v rest ih =>
    show kernelDot imgA baseA strideA rest (k0 + 1) _
      = kernelDot imgB baseB strideB rest (k0 + 1) _
    rw [hr k0 (Nat.le_refl _) (by simp only [List.length_cons]; omega)]
    exact ih (k0 + 1) _
      (fun k hk1 hk2 => hr k (by omega) (by simp only [List.length_cons]; omega))

theorem planar_decode {h w c ch r col : Nat} (hch : ch < c) (hr : r < h) (hcol : col < w) :
    (h * w * ch + r * w + col) / (h * w) = ch ∧
    ((h * w * ch + r * w + col) % (h * w)) / w = r ∧
    ((h * w * ch + r * w + col) % (h * w)) % w = col ∧
    h * w * ch + r * w + col < h * w * c := by
  have hw0 : 0 < w := by omega
  have hhw0 : 0 < h * w := by
    have : 1 * 1 ≤ h * w := Nat.mul_le_mul (by omega) (by omega)
    omega
  have hin : r * w + col < h * w := by
    have h0 : (r + 1) * w ≤ h * w := Nat.mul_le_mul_right w (by omega)
    have h1 : r * w + w = (r + 1) * w := by ring
    omega
  have hrw : h * w * ch + r * w + col = h * w * ch + (r * w + col) := by omega
  have e1 : (h * w * ch + r * w + col) / (h * w) = ch := by
    rw [hrw, Nat.add_comm (h * w * ch) (r * w + col),
      Nat.add_mul_div_left _ _ hhw0, Nat.div_eq_of_lt hin]
    omega
  have e2 : (h * w * ch + r * w + col) % (h * w) = r * w + col := by
    rw [hrw, Nat.mul_add_mod, Nat.mod_eq_of_lt hin]
  have e3 : (r * w + col) / w = r := by
    rw [Nat.add_comm, Nat.mul_comm r w, Nat.add_mul_div_left _ _ hw0,
      Nat.div_eq_of_lt hcol]
    omega
  have e4 : (r * w + col) % w = col := by
    rw [Nat.add_comm, Nat.mul_comm r w, Nat.add_mul_mod_self_left, Nat.mod_eq_of_lt hcol]
  have e5 : h * w * ch + r * w + col < h * w * c := by
    have h2 : h * w * ch + h * w = h * w * (ch + 1) := by ring
    have h3 : h * w * (ch + 1) ≤ h * w * c := Nat.mul_le_mul_left _ (by omega)
    omega
  rw [e2]
  exact ⟨e1, e3, e4, e5⟩

theorem interleaved_decode {h w c ch r col : Nat} (hch : ch < c) (hr : r < h)
    (hcol : col < w) :
    (r * (w * c) + col * c + ch) % c = ch ∧
    ((r * (w * c) + col * c + ch) % (w * c)) / c = col ∧
    (r * (w * c) + col * c + ch) / (w * c) = r ∧
    r * (w * c) + col * c + ch < h * w * c := by
  have hc0 : 0 < c := by omega
  have hwc0 : 0 < w * c := by
    have : 1 * 1 ≤ w * c := Nat.mul_le_mul (by omega) (by omega)
    omega
  have hin : col * c + ch < w * c := by
    have h0 : (col + 1) * c ≤ w * c := Nat.mul_le_mul_right c (by omega)
    have h1 : col * c + c = (col + 1) * c := by ring
    omega
  have hrw : r * (w * c) + col * c + ch = (w * c) * r + (col * c + ch) := by
    have : r * (w * c) = (w * c) * r := by ring
    omega
  have e1 : (r * (w * c) + col * c + ch) % c = ch := by
    have hq : r * (w * c) + col * c + ch = c * (r * w + col) + ch := by ring
    rw [hq, Nat.mul_add_mod, Nat.mod_eq_of_lt hch]
  have e2 : (r * (w * c) + col * c + ch) % (w * c) = col * c + ch := by
    rw [hrw, Nat.mul_add_mod, Nat.mod_eq_of_lt hin]
  have e3 : (col * c + ch) / c = col := by
    rw [Nat.add_comm, Nat.mul_comm col c, Nat.add_mul_div_left _ _ hc0,
      Nat.div_eq_of_lt hch]
    omega
  have e4 : (r * (w * c) + col * c + ch) / (w * c) = r := by
    rw [hrw, Nat.mul_add_div hwc0, Nat.div_eq_of_lt hin]
    omega
  have e5 : r * (w * c) + col * c + ch < h * w * c := by
    have h2 : r * (w * c) + w * c = (r + 1) * (w * c) := by ring
    have h3 : (r + 1) * (w * c) ≤ h * (w * c) := Nat.mul_le_mul_right _ (by omega)
    have h4 : h * (w * c) = h * w * c := by ring
    omega
  rw [e2]
  exact ⟨e1, e3, e4, e5⟩

/-! ### Claim theorems -/

/-- C10: the capacity validation computes `height*width*numChannels` in 32-bit
arithmetic (modulo `2^32`) in every convolution function and in
`transposePlanar`.  With `height = 2`, `width = 1`, `numChannels = 2^31`, the
true product `2^32` exceeds the buffer lengths, yet the 32-bit product wraps
to `0`, so validation passes and each call proceeds instead of reporting
failure: the planar variants even complete and return `true`, while the
interleaved variants and the transpose run their loops until an out-of-bounds
access (modelled as `none`) rather than returning `false`. -/
theorem c10_modular_capacity_gap :
    (2 * 1 * 2147483648 > List.length [(5 : Int), 7] ∧
      ConvValid [(1 : Int)] [5, 7] [0, 0] 2 1 2147483648 0 ∧
      convolve1DHorizontalPlanar [(1 : Int)] [5, 7] 2 1 2147483648 0 [0, 0]
        = some (true, [5, 7]) ∧
      convolve1DVerticalPlanar [(1 : Int)] [5, 7] 2 1 2147483648 0 [0, 0]
        = some (true, [5, 7])) ∧
    (2 * 1 * 2147483648 > List.length [(5 : Int)] ∧
      ConvValid [(1 : Int)] [5] [0] 2 1 2147483648 0 ∧
      convolve1DHorizontalInterleaved [(1 : Int)] [5] 2 1 2147483648 0 [0] = none ∧
      convolve1DVerticalInterleaved [(1 : Int)] [5] 2 1 2147483648 0 [0] = none) ∧
    (2 * 1 * 2147483648 > List.length [(5 : Int), 7] ∧
      TransValid [(5 : Int), 7] 2 1 2147483648 [0, 0] ∧
      transposePlanar [(5 : Int), 7] 2 1 2147483648 [0, 0] = none) := by
  exact ⟨⟨by decide, by decide, by decide, by decide⟩,
    ⟨by decide, by decide, by decide, by decide⟩,
    ⟨by decide, by decide, by decide⟩⟩

/-- C9: when the interior range is empty (`center ≤ width ≤ 2*center` for the
horizontal variants, `center ≤ height ≤ 2*center` for the vertical ones, with
`center = kernel.length / 2`), a call that passes validation returns `true`
while writing nothing: the destination buffer is returned exactly equal to its
pre-call contents. -/
theorem c9_empty_interior_noop [Add α] [Mul α] [Zero α]
    (kernel image result : List α) (h w c ch : Nat)
    (hk : kernel.length < U32) (hh32 : h < U32) (hw32 : w < U32)
    (hv : ConvValid kernel image result h w c ch) :
    (kernel.length / 2 ≤ w → w ≤ 2 * (kernel.length / 2) →
      convolve1DHorizontalPlanar kernel image h w c ch result = some (true, result) ∧
      convolve1DHorizontalInterleaved kernel image h w c ch result = some (true, result)) ∧
    (kernel.length / 2 ≤ h → h ≤ 2 * (kernel.length / 2) →
      convolve1DVerticalPlanar kernel image h w c ch result = some (true, result) ∧
      convolve1DVerticalInterleaved kernel image h w c ch result = some (true, result)) := by
  have hcen : kernel.length % U32 = kernel.length := Nat.mod_eq_of_lt hk
  constructor
  · intro hc1 hc2
    have hz : usub w (kernel.length % U32 / 2) - kernel.length % U32 / 2 = 0 := by
      rw [hcen, usub_eq hc1 hw32]
      omega
    constructor
    · rw [convolve1DHorizontalPlanar_eq_of_valid hv]
      simp only [hz]
      rw [iterM_inner_zero]
      rfl
    · rw [convolve1DHorizontalInterleaved_eq_of_valid hv]
      simp only [hz]
      rw [iterM_inner_zero]
      rfl
  · intro hc1 hc2
    have hz : usub h (kernel.length % U32 / 2) - kernel.length % U32 / 2 = 0 := by
      rw [hcen, usub_eq hc1 hh32]
      omega
    constructor
    · rw [convolve1DVerticalPlanar_eq_of_valid hv]
      simp only [hz]
      rw [iterM_inner_zero]
      rfl
    · rw [convolve1DVerticalInterleaved_eq_of_valid hv]
      simp only [hz]
      rw [iterM_inner_zero]
      rfl

/-- C9 witness: a length-3 kernel on a 2x2 single-channel image has an empty
interior in both directions, and all four variants return the destination
unchanged. -/
theorem c9_witness :
    (List.length [(1 : Int), 1, 1] / 2 ≤ 2 → 2 ≤ 2 * (List.length [(1 : Int), 1, 1] / 2) →
      convolve1DHorizontalPlanar [(1 : Int), 1, 1] [1, 2, 3, 4] 2 2 1 0 [9, 9, 9, 9]
        = some (true, [9, 9, 9, 9]) ∧
      convolve1DHorizontalInterleaved [(1 : Int), 1, 1] [1, 2, 3, 4] 2 2 1 0 [9, 9, 9, 9]
        = some (true, [9, 9, 9, 9])) ∧
    (List.length [(1 : Int), 1, 1] / 2 ≤ 2 → 2 ≤ 2 * (List.length [(1 : Int), 1, 1] / 2) →
      convolve1DVerticalPlanar [(1 : Int), 1, 1] [1, 2, 3, 4] 2 2 1 0 [9, 9, 9, 9]
        = some (true, [9, 9, 9, 9]) ∧
      convolve1DVerticalInterleaved [(1 : Int), 1, 1] [1, 2, 3, 4] 2 2 1 0 [9, 9, 9, 9]
        = some (true, [9, 9, 9, 9])) :=
  c9_empty_interior_noop [(1 : Int), 1, 1] [1, 2, 3, 4] [9, 9, 9, 9] 2 2 1 0
    (by decide) (by decide) (by decide) (by decide)

/-- C8 counterexample: `transposePlanar` does not validate only the relation
between the two buffer lengths.  With `height = width = numChannels = 1` and
both buffers empty, `src.size() > dst.size()` is false, so the claim says the
call returns `true`; but the capacity check `1*1*1 > 0` makes it return
`false`. -/
theorem c8_counterexample :
    ¬(List.length ([] : List Int) > List.length ([] : List Int)) ∧
    transposePlanar ([] : List Int) 1 1 1 [] = some (false, []) :=
  ⟨by decide, by decide⟩

/-- C8 (amended): `transposePlanar` returns `false` exactly when
`src.size() > dst.size()` or the 32-bit product `height*width*numChannels`
exceeds `src.size()`; when both checks pass, the true shape fits the source
and no 32-bit overflow occurs, it returns `true` having performed the
transposed writes. -/
theorem c8_transpose_validation [Inhabited α] (src dst : List α) (h w c : Nat) :
    (transposePlanar src h w c dst = some (false, dst) ↔
      (dst.length < src.length ∨ (h * w) % U32 * c % U32 > src.length)) ∧
    (h * w * c ≤ src.length → h * w * c < U32 → src.length ≤ dst.length →
      ∃ d2, transposePlanar src h w c dst = some (true, d2) ∧
        ∀ ch2 r col, ch2 < c → r < h → col < w →
          d2[ch2 * (h * w) + col * h + r]? = src[ch2 * (h * w) + r * w + col]?) := by
  constructor
  · constructor
    · intro hcall
      by_contra hcon
      rw [not_or] at hcon
      have hv : TransValid src h w c dst := ⟨by omega, by omega⟩
      rw [transposePlanar_eq_of_valid hv] at hcall
      cases hit : iterM (fun ch2 d =>
          iterM (fun r d2 =>
              iterM (fun col d3 =>
                  (src[(((ch2 * h) % U32 * w % U32 + (r * w) % U32) % U32 + col) % U32]?).bind
                    (fun v => setM d3
                      ((((ch2 * h) % U32 * w % U32 + (col * h) % U32) % U32 + r) % U32) v))
                0 w d2)
            0 h d)
        0 c dst with
      | none => rw [hit] at hcall; simp at hcall
      | some x => rw [hit] at hcall; simp at hcall
    · intro hor
      apply transposePlanar_not_valid
      unfold TransValid
      omega
  · intro hcap hnow hsd
    obtain ⟨d2, hrun, _, heq⟩ := transposePlanar_spec src dst h w c hsd hcap hnow
    exact ⟨d2, hrun, heq⟩

/-- C8 witness: a 2x3 single-channel transpose at concrete buffers. -/
theorem c8_witness :
    (transposePlanar [(1 : Int), 2, 3, 4, 5, 6] 2 3 1 [0, 0, 0, 0, 0, 0]
        = some (false, [0, 0, 0, 0, 0, 0]) ↔
      (List.length [(0 : Int), 0, 0, 0, 0, 0] < List.length [(1 : Int), 2, 3, 4, 5, 6] ∨
        (2 * 3) % U32 * 1 % U32 > List.length [(1 : Int), 2, 3, 4, 5, 6])) ∧
    (2 * 3 * 1 ≤ List.length [(1 : Int), 2, 3, 4, 5, 6] → 2 * 3 * 1 < U32 →
      List.length [(1 : Int), 2, 3, 4, 5, 6] ≤ List.length [(0 : Int), 0, 0, 0, 0, 0] →
      ∃ d2, transposePlanar [(1 : Int), 2, 3, 4, 5, 6] 2 3 1 [0, 0, 0, 0, 0, 0]
          = some (true, d2) ∧
        ∀ ch2 r col, ch2 < 1 → r < 2 → col < 3 →
          d2[ch2 * (2 * 3) + col * 2 + r]? =
            [(1 : Int), 2, 3, 4, 5, 6][ch2 * (2 * 3) + r * 3 + col]?) :=
  c8_transpose_validation [(1 : Int), 2, 3, 4, 5, 6] [0, 0, 0, 0, 0, 0] 2 3 1

/-- C5 counterexample: an input that passes the transpose validation (the
32-bit capacity product `2^16 * 2^16 * 1` wraps to `0`) on which the call
does not perform the claimed writes: it aborts on an out-of-bounds access
(`none`), so there is no successful result at all. -/
theorem c5_counterexample :
    TransValid [(5 : Int)] 65536 65536 1 [0] ∧
    transposePlanar [(5 : Int)] 65536 65536 1 [0] = none :=
  ⟨by decide, by decide⟩

/-- C5 (amended): when the true shape capacity fits the source
(`h*w*c ≤ src.size()`, with no 32-bit overflow) and the destination is large
enough, `transposePlanar` succeeds and writes
`dst[chStart + col*H + row] = src[chStart + row*W + col]` for every channel,
row and column.  (The source buffer itself is never mutated: the embedding is
pure in `src`, mirroring the `const` C++ parameter.) -/
theorem c5_transpose_writes [Inhabited α] (src dst : List α) (h w c : Nat)
    (hsd : src.length ≤ dst.length) (hcap : h * w * c ≤ src.length)
    (hnow : h * w * c < U32) :
    ∃ d2, transposePlanar src h w c dst = some (true, d2) ∧
      ∀ ch2 r col, ch2 < c → r < h → col < w →
        d2[ch2 * (h * w) + col * h + r]? = src[ch2 * (h * w) + r * w + col]? := by
  obtain ⟨d2, h1, _, h3⟩ := transposePlanar_spec src dst h w c hsd hcap hnow
  exact ⟨d2, h1, h3⟩

/-- C5 witness: the 2x3 transpose at concrete buffers. -/
theorem c5_witness :
    ∃ d2, transposePlanar [(1 : Int), 2, 3, 4, 5, 6] 2 3 1 [0, 0, 0, 0, 0, 0]
        = some (true, d2) ∧
      ∀ ch2 r col, ch2 < 1 → r < 2 → col < 3 →
        d2[ch2 * (2 * 3) + col * 2 + r]? =
          [(1 : Int), 2, 3, 4, 5, 6][ch2 * (2 * 3) + r * 3 + col]? :=
  c5_transpose_writes [(1 : Int), 2, 3, 4, 5, 6] [0, 0, 0, 0, 0, 0] 2 3 1
    (by decide) (by decide) (by decide)

/-- C7 counterexample: an input that passes the code's validation (the 32-bit
capacity product wraps to `0` on an empty image) for which the guarded,
Option-returning embedding reaches its out-of-bounds branch: the call returns
`none` because the very first read `image[0]` is outside the empty buffer. -/
theorem c7_counterexample :
    ConvValid [(1 : Int)] ([] : List Int) [] 2 1 2147483648 0 ∧
    convolve1DHorizontalPlanar [(1 : Int)] ([] : List Int) 2 1 2147483648 0 [] = none :=
  ⟨by decide, by decide⟩

/-- C7 (amended): for a validated call of `convolve1DHorizontalPlanar` whose
true shape product does not overflow 32 bits and whose kernel half-width fits
the width, the run completes (the out-of-bounds branch is unreachable), and
every read and write index lies in `[channelStart, channelStart + H*W)` and
inside the respective buffer. -/
theorem c7_bounds [Add α] [Mul α] [Zero α] (kernel image result : List α) (h w c ch : Nat)
    (hk : kernel.length < U32) (hnow : h * w * c < U32) (hcw : kernel.length / 2 ≤ w)
    (hv : ConvValid kernel image result h w c ch) :
    (∃ res, convolve1DHorizontalPlanar kernel image h w c ch result = some (true, res)) ∧
    (∀ r col k, r < h → kernel.length / 2 ≤ col → col < w - kernel.length / 2 →
      k < kernel.length →
      (h * w * ch ≤ h * w * ch + r * w + col - kernel.length / 2 + k ∧
        h * w * ch + r * w + col - kernel.length / 2 + k < h * w * ch + h * w ∧
        h * w * ch + r * w + col - kernel.length / 2 + k < image.length) ∧
      (h * w * ch ≤ h * w * ch + r * w + col ∧
        h * w * ch + r * w + col < h * w * ch + h * w ∧
        h * w * ch + r * w + col < result.length)) := by
  obtain ⟨hodd, hch, hres, hcapm⟩ := hv
  have eprod : (h * w) % U32 * c % U32 = h * w * c := by
    rw [Nat.mod_mul_mod]
    exact Nat.mod_eq_of_lt hnow
  have hcap : h * w * c ≤ image.length := by
    rw [eprod] at hcapm
    exact hcapm
  constructor
  · obtain ⟨res, hrun, _, _, _⟩ := convolve1DHorizontalPlanar_spec kernel image result
      h w c ch hk hodd hch hres hcap hnow hcw
    exact ⟨res, hrun⟩
  · intro r col k hr hc1 hc2 hkk
    have hklen : kernel.length = 2 * (kernel.length / 2) + 1 := by omega
    have hcolw : col < w := by omega
    have h1 : r * w + w ≤ h * w := by
      have h0 : (r + 1) * w ≤ h * w := Nat.mul_le_mul_right w (by omega)
      calc r * w + w = (r + 1) * w := by ring
      _ ≤ h * w := h0
    have h2 : h * w * ch + h * w = h * w * (ch + 1) := by ring
    have h3 : h * w * (ch + 1) ≤ h * w * c := Nat.mul_le_mul_left _ (by omega)
    constructor
    · constructor
      · omega
      · constructor
        · omega
        · omega
    · constructor
      · omega
      · constructor
        · omega
        · omega

/-- C7 witness: a concrete validated 1x3 single-channel call. -/
theorem c7_witness :
    (∃ res, convolve1DHorizontalPlanar [(1 : Int), 2, 3] [1, 1, 1] 1 3 1 0 [0, 0, 0]
        = some (true, res)) ∧
    (∀ r col k, r < 1 → List.length [(1 : Int), 2, 3] / 2 ≤ col →
      col < 3 - List.length [(1 : Int), 2, 3] / 2 → k < List.length [(1 : Int), 2, 3] →
      (1 * 3 * 0 ≤ 1 * 3 * 0 + r * 3 + col - List.length [(1 : Int), 2, 3] / 2 + k ∧
        1 * 3 * 0 + r * 3 + col - List.length [(1 : Int), 2, 3] / 2 + k < 1 * 3 * 0 + 1 * 3 ∧
        1 * 3 * 0 + r * 3 + col - List.length [(1 : Int), 2, 3] / 2 + k
          < List.length [(1 : Int), 1, 1]) ∧
      (1 * 3 * 0 ≤ 1 * 3 * 0 + r * 3 + col ∧
        1 * 3 * 0 + r * 3 + col < 1 * 3 * 0 + 1 * 3 ∧
        1 * 3 * 0 + r * 3 + col < List.length [(0 : Int), 0, 0])) :=
  c7_bounds [(1 : Int), 2, 3] [1, 1, 1] [0, 0, 0] 1 3 1 0
    (by decide) (by decide) (by decide) (by decide)

/-- C2 counterexample: with `height = 2`, `width = 1`, `numChannels = 2^31`
and empty buffers, the mathematical condition
`height*width*numChannels ≤ image.size()` fails, so the claim requires the
call to return `false` with the buffer untouched; instead the 32-bit capacity
check wraps to `0`, the call proceeds, and it aborts on an out-of-bounds read
(`none`), returning neither `true` nor `false`. -/
theorem c2_counterexample :
    ¬(2 * 1 * 2147483648 ≤ List.length ([] : List Int)) ∧
    convolve1DHorizontalPlanar [(1 : Int)] ([] : List Int) 2 1 2147483648 0 []
      ≠ some (false, ([] : List Int)) ∧
    convolve1DHorizontalPlanar [(1 : Int)] ([] : List Int) 2 1 2147483648 0 [] = none :=
  ⟨by decide, by decide, by decide⟩

/-- C2 (amended): assuming the shape product does not overflow 32 bits, each
of the four convolution functions returns `false` -- necessarily with the
result buffer exactly equal to its pre-call contents -- exactly when one of
the four conditions (odd kernel, `channelIndex < numChannels`,
`result.size() >= image.size()`, `height*width*numChannels <= image.size()`)
fails; in particular a call with all four conditions holding never returns
`false`.  When all four hold it returns `true`, provided additionally the
kernel half-width fits the convolved dimension (`center <= width`
horizontally, `center <= height` vertically), which is needed for the
unsigned loop bounds not to wrap. -/
theorem c2_validation_iff [Add α] [Mul α] [Zero α]
    (kernel image result : List α) (h w c ch : Nat)
    (hk : kernel.length < U32) (hnow : h * w * c < U32) :
    (∀ res2, convolve1DHorizontalPlanar kernel image h w c ch result
        = some (false, res2) ↔
      (¬(kernel.length % 2 = 1 ∧ ch < c ∧ image.length ≤ result.length ∧
        h * w * c ≤ image.length) ∧ res2 = result)) ∧
    (∀ res2, convolve1DVerticalPlanar kernel image h w c ch result
        = some (false, res2) ↔
      (¬(kernel.length % 2 = 1 ∧ ch < c ∧ image.length ≤ result.length ∧
        h * w * c ≤ image.length) ∧ res2 = result)) ∧
    (∀ res2, convolve1DHorizontalInterleaved kernel image h w c ch result
        = some (false, res2) ↔
      (¬(kernel.length % 2 = 1 ∧ ch < c ∧ image.length ≤ result.length ∧
        h * w * c ≤ image.length) ∧ res2 = result)) ∧
    (∀ res2, convolve1DVerticalInterleaved kernel image h w c ch result
        = some (false, res2) ↔
      (¬(kernel.length % 2 = 1 ∧ ch < c ∧ image.length ≤ result.length ∧
        h * w * c ≤ image.length) ∧ res2 = result)) ∧
    ((kernel.length % 2 = 1 ∧ ch < c ∧ image.length ≤ result.length ∧
        h * w * c ≤ image.length) →
      (kernel.length / 2 ≤ w →
        (∃ r1, convolve1DHorizontalPlanar kernel image h w c ch result = some (true, r1)) ∧
        (∃ r2, convolve1DHorizontalInterleaved kernel image h w c ch result
          = some (true, r2))) ∧
      (kernel.length / 2 ≤ h →
        (∃ r3, convolve1DVerticalPlanar kernel image h w c ch result = some (true, r3)) ∧
        (∃ r4, convolve1DVerticalInterleaved kernel image h w c ch result
          = some (true, r4)))) := by
  have eprod : (h * w) % U32 * c % U32 = h * w * c := by
    rw [Nat.mod_mul_mod]
    exact Nat.mod_eq_of_lt hnow
  have hVC : ConvValid kernel image result h w c ch ↔
      (kernel.length % 2 = 1 ∧ ch < c ∧ image.length ≤ result.length ∧
        h * w * c ≤ image.length) := by
    unfold ConvValid
    rw [eprod]
  have hmapne : ∀ (o : Option (List α)) (res2 : List α),
      o.map (fun r => ((true : Bool), r)) ≠ some (false, res2) := by
    intro o res2 heq
    cases o with
    | none => exact Option.noConfusion heq
    | some x =>
        have h1 := Option.some.inj heq
        exact Bool.noConfusion (congrArg Prod.fst h1)
  have hiffHP : ∀ res2, convolve1DHorizontalPlanar kernel image h w c ch result
      = some (false, res2) ↔
      (¬(kernel.length % 2 = 1 ∧ ch < c ∧ image.length ≤ result.length ∧
        h * w * c ≤ image.length) ∧ res2 = result) := by
    intro res2
    constructor
    · intro heq
      by_cases hcond : kernel.length % 2 = 1 ∧ ch < c ∧ image.length ≤ result.length ∧
          h * w * c ≤ image.length
      · exact absurd heq (by
          rw [convolve1DHorizontalPlanar_eq_of_valid (hVC.mpr hcond)]
          exact hmapne _ res2)
      · have h2 := convolve1DHorizontalPlanar_not_valid
          (fun hv => hcond (hVC.mp hv))
        rw [h2] at heq
        exact ⟨hcond, (congrArg Prod.snd (Option.some.inj heq)).symm⟩
    · rintro ⟨hnc, rfl⟩
      exact convolve1DHorizontalPlanar_not_valid (fun hv => hnc (hVC.mp hv))
  have hiffVP : ∀ res2, convolve1DVerticalPlanar kernel image h w c ch result
      = some (false, res2) ↔
      (¬(kernel.length % 2 = 1 ∧ ch < c ∧ image.length ≤ result.length ∧
        h * w * c ≤ image.length) ∧ res2 = result) := by
    intro res2
    constructor
    · intro heq
      by_cases hcond : kernel.length % 2 = 1 ∧ ch < c ∧ image.length ≤ result.length ∧
          h * w * c ≤ image.length
      · exact absurd heq (by
          rw [convolve1DVerticalPlanar_eq_of_valid (hVC.mpr hcond)]
          exact hmapne _ res2)
      · have h2 := convolve1DVerticalPlanar_not_valid
          (fun hv => hcond (hVC.mp hv))
        rw [h2] at heq
        exact ⟨hcond, (congrArg Prod.snd (Option.some.inj heq)).symm⟩
    · rintro ⟨hnc, rfl⟩
      exact convolve1DVerticalPlanar_not_valid (fun hv => hnc (hVC.mp hv))
  have hiffHI : ∀ res2, convolve1DHorizontalInterleaved kernel image h w c ch result
      = some (false, res2) ↔
      (¬(kernel.length % 2 = 1 ∧ ch < c ∧ image.length ≤ result.length ∧
        h * w * c ≤ image.length) ∧ res2 = result) := by
    intro res2
    constructor
    · intro heq
      by_cases hcond : kernel.length % 2 = 1 ∧ ch < c ∧ image.length ≤ result.length ∧
          h * w * c ≤ image.length
      · exact absurd heq (by
          rw [convolve1DHorizontalInterleaved_eq_of_valid (hVC.mpr hcond)]
          exact hmapne _ res2)
      · have h2 := convolve1DHorizontalInterleaved_not_valid
          (fun hv => hcond (hVC.mp hv))
        rw [h2] at heq
        exact ⟨hcond, (congrArg Prod.snd (Option.some.inj heq)).symm⟩
    · rintro ⟨hnc, rfl⟩
      exact convolve1DHorizontalInterleaved_not_valid (fun hv => hnc (hVC.mp hv))
  have hiffVI : ∀ res2, convolve1DVerticalInterleaved kernel image h w c ch result
      = some (false, res2) ↔
      (¬(kernel.length % 2 = 1 ∧ ch < c ∧ image.length ≤ result.length ∧
        h * w * c ≤ image.length) ∧ res2 = result) := by
    intro res2
    constructor
    · intro heq
      by_cases hcond : kernel.length % 2 = 1 ∧ ch < c ∧ image.length ≤ result.length ∧
          h * w * c ≤ image.length
      · exact absurd heq (by
          rw [convolve1DVerticalInterleaved_eq_of_valid (hVC.mpr hcond)]
          exact hmapne _ res2)
      · have h2 := convolve1DVerticalInterleaved_not_valid
          (fun hv => hcond (hVC.mp hv))
        rw [h2] at heq
        exact ⟨hcond, (congrArg Prod.snd (Option.some.inj heq)).symm⟩
    · rintro ⟨hnc, rfl⟩
      exact convolve1DVerticalInterleaved_not_valid (fun hv => hnc (hVC.mp hv))
  refine ⟨hiffHP, hiffVP, hiffHI, hiffVI, ?_⟩
  intro hc
  obtain ⟨hodd, hch, hres, hcap⟩ := hc
  constructor
  · intro hcw
    constructor
    · obtain ⟨res, hrun, _, _, _⟩ := convolve1DHorizontalPlanar_spec kernel image result
        h w c ch hk hodd hch hres hcap hnow hcw
      exact ⟨res, hrun⟩
    · obtain ⟨res, hrun, _, _, _⟩ := convolve1DHorizontalInterleaved_spec kernel image
        result h w c ch hk hodd hch hres hcap hnow hcw
      exact ⟨res, hrun⟩
  · intro hch2
    constructor
    · obtain ⟨res, hrun, _, _⟩ := convolve1DVerticalPlanar_spec kernel image result
        h w c ch hk hodd hch hres hcap hnow hch2
      exact ⟨res, hrun⟩
    · obtain ⟨res, hrun, _, _⟩ := convolve1DVerticalInterleaved_spec kernel image result
        h w c ch hk hodd hch hres hcap hnow hch2
      exact ⟨res, hrun⟩

/-- C2 witness: a genuinely failing case (the even-length kernel `[1, 2]`
makes the call report `false` with the buffer untouched) and a genuinely
passing case (the odd kernel `[1, 2, 3]` on a valid 1x3 single-channel shape
makes all four functions report `true`), both obtained by applying the
amended validation theorem at concrete inputs. -/
theorem c2_witness :
    (convolve1DHorizontalPlanar [(1 : Int), 2] [1, 1, 1] 1 3 1 0 [0, 0, 0]
      = some (false, [0, 0, 0])) ∧
    (∃ r1, convolve1DHorizontalPlanar [(1 : Int), 2, 3] [1, 1, 1] 1 3 1 0 [0, 0, 0]
      = some (true, r1)) ∧
    (∃ r2, convolve1DHorizontalInterleaved [(1 : Int), 2, 3] [1, 1, 1] 1 3 1 0 [0, 0, 0]
      = some (true, r2)) ∧
    (∃ r3, convolve1DVerticalPlanar [(1 : Int), 2, 3] [1, 1, 1] 1 3 1 0 [0, 0, 0]
      = some (true, r3)) ∧
    (∃ r4, convolve1DVerticalInterleaved [(1 : Int), 2, 3] [1, 1, 1] 1 3 1 0 [0, 0, 0]
      = some (true, r4)) := by
  have hfail := (c2_validation_iff [(1 : Int), 2] [1, 1, 1] [0, 0, 0] 1 3 1 0
    (by decide) (by decide)).1
  have hpass := (c2_validation_iff [(1 : Int), 2, 3] [1, 1, 1] [0, 0, 0] 1 3 1 0
    (by decide) (by decide)).2.2.2.2 ⟨by decide, by decide, by decide, by decide⟩
  exact ⟨(hfail [0, 0, 0]).mpr ⟨by decide, rfl⟩,
    (hpass.1 (by decide)).1, (hpass.1 (by decide)).2,
    (hpass.2 (by decide)).1, (hpass.2 (by decide)).2⟩

/-- C1 counterexample: an input passing the code's validation (the 32-bit
capacity product `2*1*(2^31+1)` wraps to `2`) on which the claimed write at
`dest[channelStart + r*W + w]` with the mathematical
`channelStart = channelIndex*H*W = 2^32` does not happen: the call completes
(writing, due to the wrap, into channel 0 instead) and the destination has no
position `2^32` at all. -/
theorem c1_counterexample :
    ConvValid [(1 : Int)] [5, 7] [0, 0] 2 1 2147483649 2147483648 ∧
    convolve1DHorizontalPlanar [(1 : Int)] [5, 7] 2 1 2147483649 2147483648 [0, 0]
      = some (true, [5, 7]) ∧
    (0 : Nat) < 2 ∧ List.length [(1 : Int)] / 2 ≤ 0 ∧
    (0 : Nat) < 1 - List.length [(1 : Int)] / 2 ∧
    ([(5 : Int), 7])[2 * 1 * 2147483648 + 0 * 1 + 0]? ≠
      some (kernelDot [(5 : Int), 7]
        (2 * 1 * 2147483648 + 0 * 1 + (0 - List.length [(1 : Int)] / 2)) 1 [1] 0 0) :=
  ⟨by decide, by decide, by decide, by decide, by decide, by decide⟩

/-- C1 (amended): for every input passing validation whose true shape product
does not overflow 32 bits and whose kernel half-width fits the width,
`convolve1DHorizontalPlanar` succeeds, and for each row `r` and interior
column `col` writes `dest[channelStart + r*W + col]` the kernel-index-order
weighted sum, from a zero accumulator, of
`image[channelStart + r*W + (col - center + k)]`
(`channelStart = H*W*channelIndex`). -/
theorem c1_horizontal_planar_interior [Add α] [Mul α] [Zero α]
    (kernel image result : List α) (h w c ch : Nat)
    (hk : kernel.length < U32) (hnow : h * w * c < U32) (hcw : kernel.length / 2 ≤ w)
    (hv : ConvValid kernel image result h w c ch) :
    ∃ res, convolve1DHorizontalPlanar kernel image h w c ch result = some (true, res) ∧
      ∀ r, r < h → ∀ col, kernel.length / 2 ≤ col → col < w - kernel.length / 2 →
        res[h * w * ch + r * w + col]? =
          some (kernelDot image (h * w * ch + r * w + (col - kernel.length / 2)) 1
            kernel 0 0) := by
  obtain ⟨hodd, hch, hres, hcapm⟩ := hv
  have eprod : (h * w) % U32 * c % U32 = h * w * c := by
    rw [Nat.mod_mul_mod]
    exact Nat.mod_eq_of_lt hnow
  have hcap : h * w * c ≤ image.length := by
    rw [eprod] at hcapm
    exact hcapm
  obtain ⟨res, hrun, _, heq, _⟩ := convolve1DHorizontalPlanar_spec kernel image result
    h w c ch hk hodd hch hres hcap hnow hcw
  exact ⟨res, hrun, heq⟩

/-- C1 witness: a 1x3 single-channel call with kernel `[1, 2, 3]`. -/
theorem c1_witness :
    ∃ res, convolve1DHorizontalPlanar [(1 : Int), 2, 3] [1, 1, 1] 1 3 1 0 [0, 0, 0]
        = some (true, res) ∧
      ∀ r, r < 1 → ∀ col, List.length [(1 : Int), 2, 3] / 2 ≤ col →
        col < 3 - List.length [(1 : Int), 2, 3] / 2 →
        res[1 * 3 * 0 + r * 3 + col]? =
          some (kernelDot [(1 : Int), 1, 1]
            (1 * 3 * 0 + r * 3 + (col - List.length [(1 : Int), 2, 3] / 2)) 1
            [(1 : Int), 2, 3] 0 0) :=
  c1_horizontal_planar_interior [(1 : Int), 2, 3] [1, 1, 1] [0, 0, 0] 1 3 1 0
    (by decide) (by decide) (by decide) (by decide)

/-- C4 counterexample: a call passing the code's validation whose 32-bit
channel-start computation wraps (`channelIndex*H*W = 2^32 ≡ 0`), so a
position belonging to channel 0 — not the selected channel `2^31` — is
overwritten, contradicting the claim that positions of other channels are
left untouched. -/
theorem c4_counterexample :
    ConvValid [(1 : Int)] [5, 7] [0, 0] 2 1 2147483649 2147483648 ∧
    convolve1DHorizontalPlanar [(1 : Int)] [5, 7] 2 1 2147483649 2147483648 [0, 0]
      = some (true, [5, 7]) ∧
    (0 : Nat) / (2 * 1) ≠ 2147483648 ∧
    (0 : Nat) < 2 * 1 * 2147483649 ∧
    ([(5 : Int), 7])[0]? ≠ ([(0 : Int), 0])[0]? :=
  ⟨by decide, by decide, by decide, by decide, by decide⟩

/-- C4 (amended): for every validated call whose true shape product does not
overflow 32 bits and whose kernel half-width fits the convolved dimension,
each convolution function succeeds and leaves unchanged every position that
is beyond `height*width*numChannels`, or belongs to a channel other than
`channelIndex`, or is a border position of the convolved dimension. -/
theorem c4_frame [Add α] [Mul α] [Zero α] (kernel image result : List α) (h w c ch : Nat)
    (hk : kernel.length < U32) (hnow : h * w * c < U32)
    (hv : ConvValid kernel image result h w c ch) :
    (kernel.length / 2 ≤ w →
      (∃ res, convolve1DHorizontalPlanar kernel image h w c ch result = some (true, res) ∧
        ∀ j, (h * w * c ≤ j ∨ j / (h * w) ≠ ch ∨
            (j % (h * w)) % w < kernel.length / 2 ∨
            w - kernel.length / 2 ≤ (j % (h * w)) % w) →
          res[j]? = result[j]?) ∧
      (∃ res, convolve1DHorizontalInterleaved kernel image h w c ch result
          = some (true, res) ∧
        ∀ j, (h * w * c ≤ j ∨ j % c ≠ ch ∨
            (j % (w * c)) / c < kernel.length / 2 ∨
            w - kernel.length / 2 ≤ (j % (w * c)) / c) →
          res[j]? = result[j]?)) ∧
    (kernel.length / 2 ≤ h →
      (∃ res, convolve1DVerticalPlanar kernel image h w c ch result = some (true, res) ∧
        ∀ j, (h * w * c ≤ j ∨ j / (h * w) ≠ ch ∨
            (j % (h * w)) / w < kernel.length / 2 ∨
            h - kernel.length / 2 ≤ (j % (h * w)) / w) →
          res[j]? = result[j]?) ∧
      (∃ res, convolve1DVerticalInterleaved kernel image h w c ch result
          = some (true, res) ∧
        ∀ j, (h * w * c ≤ j ∨ j % c ≠ ch ∨
            j / (w * c) < kernel.length / 2 ∨
            h - kernel.length / 2 ≤ j / (w * c)) →
          res[j]? = result[j]?)) := by
  obtain ⟨hodd, hch, hres, hcapm⟩ := hv
  have eprod : (h * w) % U32 * c % U32 = h * w * c := by
    rw [Nat.mod_mul_mod]
    exact Nat.mod_eq_of_lt hnow
  have hcap : h * w * c ≤ image.length := by
    rw [eprod] at hcapm
    exact hcapm
  constructor
  · intro hcw
    constructor
    · obtain ⟨res, hrun, _, _, hframe⟩ := convolve1DHorizontalPlanar_spec kernel image
        result h w c ch hk hodd hch hres hcap hnow hcw
      refine ⟨res, hrun, ?_⟩
      intro j hcases
      apply hframe
      intro r hr col hc1 hc2 heq
      subst heq
      obtain ⟨d1, d2, d3, d4⟩ := planar_decode hch hr (show col < w by omega)
      rcases hcases with hA | hB | hC | hD
      · omega
      · exact hB d1
      · omega
      · omega
    · obtain ⟨res, hrun, _, _, hframe⟩ := convolve1DHorizontalInterleaved_spec kernel
        image result h w c ch hk hodd hch hres hcap hnow hcw
      refine ⟨res, hrun, ?_⟩
      intro j hcases
      apply hframe
      intro r hr col hc1 hc2 heq
      subst heq
      obtain ⟨d1, d2, d3, d4⟩ := interleaved_decode hch hr (show col < w by omega)
      rcases hcases with hA | hB | hC | hD
      · omega
      · exact hB d1
      · omega
      · omega
  · intro hch2
    constructor
    · obtain ⟨res, hrun, _, hframe⟩ := convolve1DVerticalPlanar_spec kernel image
        result h w c ch hk hodd hch hres hcap hnow hch2
      refine ⟨res, hrun, ?_⟩
      intro j hcases
      apply hframe
      intro col hcol r hc1 hc2 heq
      subst heq
      obtain ⟨d1, d2, d3, d4⟩ := planar_decode hch (show r < h by omega) hcol
      rcases hcases with hA | hB | hC | hD
      · omega
      · exact hB d1
      · omega
      · omega
    · obtain ⟨res, hrun, _, hframe⟩ := convolve1DVerticalInterleaved_spec kernel image
        result h w c ch hk hodd hch hres hcap hnow hch2
      refine ⟨res, hrun, ?_⟩
      intro j hcases
      apply hframe
      intro col hcol r hc1 hc2 heq
      subst heq
      obtain ⟨d1, d2, d3, d4⟩ := interleaved_decode hch (show r < h by omega) hcol
      rcases hcases with hA | hB | hC | hD
      · omega
      · exact hB d1
      · omega
      · omega

/-- C4 witness: a 3x3 two-channel call with kernel `[1, 1, 1]`. -/
theorem c4_witness :
    (List.length [(1 : Int), 1, 1] / 2 ≤ 3 →
      (∃ res, convolve1DHorizontalPlanar [(1 : Int), 1, 1]
          [1, 1, 1, 1, 1, 1, 1, 1, 1, 1, 1, 1, 1, 1, 1, 1, 1, 1] 3 3 2 0
          [0, 0, 0, 0, 0, 0, 0, 0, 0, 0, 0, 0, 0, 0, 0, 0, 0, 0] = some (true, res) ∧
        ∀ j, (3 * 3 * 2 ≤ j ∨ j / (3 * 3) ≠ 0 ∨
            (j % (3 * 3)) % 3 < List.length [(1 : Int), 1, 1] / 2 ∨
            3 - List.length [(1 : Int), 1, 1] / 2 ≤ (j % (3 * 3)) % 3) →
          res[j]? = [(0 : Int), 0, 0, 0, 0, 0, 0, 0, 0, 0, 0, 0, 0, 0, 0, 0, 0, 0][j]?) ∧
      (∃ res, convolve1DHorizontalInterleaved [(1 : Int), 1, 1]
          [1, 1, 1, 1, 1, 1, 1, 1, 1, 1, 1, 1, 1, 1, 1, 1, 1, 1] 3 3 2 0
          [0, 0, 0, 0, 0, 0, 0, 0, 0, 0, 0, 0, 0, 0, 0, 0, 0, 0] = some (true, res) ∧
        ∀ j, (3 * 3 * 2 ≤ j ∨ j % 2 ≠ 0 ∨
            (j % (3 * 2)) / 2 < List.length [(1 : Int), 1, 1] / 2 ∨
            3 - List.length [(1 : Int), 1, 1] / 2 ≤ (j % (3 * 2)) / 2) →
          res[j]? = [(0 : Int), 0, 0, 0, 0, 0, 0, 0, 0, 0, 0, 0, 0, 0, 0, 0, 0, 0][j]?)) ∧
    (List.length [(1 : Int), 1, 1] / 2 ≤ 3 →
      (∃ res, convolve1DVerticalPlanar [(1 : Int), 1, 1]
          [1, 1, 1, 1, 1, 1, 1, 1, 1, 1, 1, 1, 1, 1, 1, 1, 1, 1] 3 3 2 0
          [0, 0, 0, 0, 0, 0, 0, 0, 0, 0, 0, 0, 0, 0, 0, 0, 0, 0] = some (true, res) ∧
        ∀ j, (3 * 3 * 2 ≤ j ∨ j / (3 * 3) ≠ 0 ∨
            (j % (3 * 3)) / 3 < List.length [(1 : Int), 1, 1] / 2 ∨
            3 - List.length [(1 : Int), 1, 1] / 2 ≤ (j % (3 * 3)) / 3) →
          res[j]? = [(0 : Int), 0, 0, 0, 0, 0, 0, 0, 0, 0, 0, 0, 0, 0, 0, 0, 0, 0][j]?) ∧
      (∃ res, convolve1DVerticalInterleaved [(1 : Int), 1, 1]
          [1, 1, 1, 1, 1, 1, 1, 1, 1, 1, 1, 1, 1, 1, 1, 1, 1, 1] 3 3 2 0
          [0, 0, 0, 0, 0, 0, 0, 0, 0, 0, 0, 0, 0, 0, 0, 0, 0, 0] = some (true, res) ∧
        ∀ j, (3 * 3 * 2 ≤ j ∨ j % 2 ≠ 0 ∨
            j / (3 * 2) < List.length [(1 : Int), 1, 1] / 2 ∨
            3 - List.length [(1 : Int), 1, 1] / 2 ≤ j / (3 * 2)) →
          res[j]? = [(0 : Int), 0, 0, 0, 0, 0, 0, 0, 0, 0, 0, 0, 0, 0, 0, 0, 0, 0][j]?)) :=
  c4_frame [(1 : Int), 1, 1] [1, 1, 1, 1, 1, 1, 1, 1, 1, 1, 1, 1, 1, 1, 1, 1, 1, 1]
    [0, 0, 0, 0, 0, 0, 0, 0, 0, 0, 0, 0, 0, 0, 0, 0, 0, 0] 3 3 2 0
    (by decide) (by decide) (by decide)

/-- C3 counterexample: the claim as stated imposes no condition on the result
buffers.  With a 1x1x1 image held identically in both layouts but an empty
planar result buffer, the planar call fails validation and returns `false`,
so the two calls do not both succeed. -/
theorem c3_counterexample :
    List.length [(1 : Int)] % 2 = 1 ∧ (0 : Nat) < 1 ∧
    (∀ c2 r col, c2 < 1 → r < 1 → col < 1 →
      ([(5 : Int)])[c2 * (1 * 1) + r * 1 + col]? = ([(5 : Int)])[r * (1 * 1) + col * 1 + c2]?) ∧
    convolve1DHorizontalPlanar [(1 : Int)] [5] 1 1 1 0 ([] : List Int)
      = some (false, []) := by
  refine ⟨by decide, by decide, ?_, by decide⟩
  intro c2 r col h1 h2 h3
  have hc : c2 = 0 := by omega
  have hrr : r = 0 := by omega
  have hcc : col = 0 := by omega
  subst hc
  subst hrr
  subst hcc
  decide

/-- C3 (amended): for an odd kernel whose half-width fits the width, a channel
index in range, result buffers at least as long as the images, images long
enough for the (non-overflowing) shape, and a planar and an interleaved image
holding the same logical samples, the horizontal planar and interleaved
convolutions both succeed and produce identical values at corresponding
interior positions. -/
theorem c3_layout_equivalence [Add α] [Mul α] [Zero α]
    (kernel pImg iImg pRes iRes : List α) (h w c ch : Nat)
    (hk : kernel.length < U32) (hodd : kernel.length % 2 = 1) (hch : ch < c)
    (hpcap : h * w * c ≤ pImg.length) (hicap : h * w * c ≤ iImg.length)
    (hpres : pImg.length ≤ pRes.length) (hires : iImg.length ≤ iRes.length)
    (hnow : h * w * c < U32) (hcw : kernel.length / 2 ≤ w)
    (hcorr : ∀ c2 r col, c2 < c → r < h → col < w →
      pImg[c2 * (h * w) + r * w + col]? = iImg[r * (w * c) + col * c + c2]?) :
    ∃ rP rI, convolve1DHorizontalPlanar kernel pImg h w c ch pRes = some (true, rP) ∧
      convolve1DHorizontalInterleaved kernel iImg h w c ch iRes = some (true, rI) ∧
      ∀ r col, r < h → kernel.length / 2 ≤ col → col < w - kernel.length / 2 →
        rP[h * w * ch + r * w + col]? = rI[r * (w * c) + col * c + ch]? := by
  obtain ⟨rP, hrunP, _, heqP, _⟩ := convolve1DHorizontalPlanar_spec kernel pImg pRes
    h w c ch hk hodd hch hpres hpcap hnow hcw
  obtain ⟨rI, hrunI, _, heqI, _⟩ := convolve1DHorizontalInterleaved_spec kernel iImg iRes
    h w c ch hk hodd hch hires hicap hnow hcw
  refine ⟨rP, rI, hrunP, hrunI, ?_⟩
  intro r col hr hc1 hc2
  rw [heqP r hr col hc1 hc2, heqI r hr col hc1 hc2]
  have hklen : kernel.length = 2 * (kernel.length / 2) + 1 := by omega
  have ering : ch * (h * w) = h * w * ch := by ring
  apply congrArg some
  apply kernelDot_congr
  intro k hk1 hk2
  have hcolk : col - kernel.length / 2 + k < w := by omega
  have hdist : (col - kernel.length / 2 + k) * c = (col - kernel.length / 2) * c + k * c :=
    Nat.add_mul _ _ _
  rw [show h * w * ch + r * w + (col - kernel.length / 2) + k * 1
      = ch * (h * w) + r * w + (col - kernel.length / 2 + k) by omega]
  rw [show r * (w * c) + (col - kernel.length / 2) * c + ch + k * c
      = r * (w * c) + (col - kernel.length / 2 + k) * c + ch by omega]
  rw [List.getD_eq_getElem?_getD, List.getD_eq_getElem?_getD,
    hcorr ch r (col - kernel.length / 2 + k) hch hr hcolk]

/-- C3 witness: a 1x3 two-channel image held in both layouts, convolved with
kernel `[1, 2, 3]` on channel 0. -/
theorem c3_witness :
    ∃ rP rI, convolve1DHorizontalPlanar [(1 : Int), 2, 3] [1, 2, 3, 4, 5, 6] 1 3 2 0
        [0, 0, 0, 0, 0, 0] = some (true, rP) ∧
      convolve1DHorizontalInterleaved [(1 : Int), 2, 3] [1, 4, 2, 5, 3, 6] 1 3 2 0
        [0, 0, 0, 0, 0, 0] = some (true, rI) ∧
      ∀ r col, r < 1 → List.length [(1 : Int), 2, 3] / 2 ≤ col →
        col < 3 - List.length [(1 : Int), 2, 3] / 2 →
        rP[1 * 3 * 0 + r * 3 + col]? = rI[r * (3 * 2) + col * 2 + 0]? := by
  refine c3_layout_equivalence [(1 : Int), 2, 3] [1, 2, 3, 4, 5, 6] [1, 4, 2, 5, 3, 6]
    [0, 0, 0, 0, 0, 0] [0, 0, 0, 0, 0, 0] 1 3 2 0 (by decide) (by decide) (by decide)
    (by decide) (by decide) (by decide) (by decide) (by decide) (by decide) ?_
  intro c2 r col h1 h2 h3
  have hc : c2 = 0 ∨ c2 = 1 := by omega
  have hrr : r = 0 := by omega
  have hcc : col = 0 ∨ col = 1 ∨ col = 2 := by omega
  subst hrr
  rcases hc with rfl | rfl <;> rcases hcc with rfl | rfl | rfl <;> decide

/-- C6 (amended): provided the shape product does not overflow 32 bits,
whenever transposing an HxWxC planar image succeeds and transposing the
result with the swapped shape WxHxC succeeds as well, the second result
reproduces the original buffer on the first `H*W*C` positions. -/
theorem c6_involution [Inhabited α] (src d1 d2 dst dst2 : List α) (h w c : Nat)
    (hnow : h * w * c < U32)
    (h1 : transposePlanar src h w c dst = some (true, d1))
    (h2 : transposePlanar d1 w h c dst2 = some (true, d2)) :
    ∀ i, i < h * w * c → d2[i]? = src[i]? := by
  intro i hi
  rcases Nat.eq_zero_or_pos h with hz | hpos
  · subst hz
    omega
  rcases Nat.eq_zero_or_pos w with hz | wpos
  · subst hz
    omega
  rcases Nat.eq_zero_or_pos c with hz | cpos
  · subst hz
    omega
  have hv1 : TransValid src h w c dst := by
    by_contra hnv
    rw [transposePlanar_not_valid hnv] at h1
    simp at h1
  have eprod : (h * w) % U32 * c % U32 = h * w * c := by
    rw [Nat.mod_mul_mod]
    exact Nat.mod_eq_of_lt hnow
  have hcap1 : h * w * c ≤ src.length := by
    have hx := hv1.2
    rw [eprod] at hx
    exact hx
  obtain ⟨d1', hr1, hlen1, heq1⟩ := transposePlanar_spec src dst h w c hv1.1 hcap1 hnow
  rw [hr1] at h1
  have hd1 : d1' = d1 := congrArg Prod.snd (Option.some.inj h1)
  subst hd1
  have hv2 : TransValid d1' w h c dst2 := by
    by_contra hnv
    rw [transposePlanar_not_valid hnv] at h2
    simp at h2
  have hcap2 : w * h * c ≤ d1'.length := by
    rw [hlen1]
    have hx := hv1.1
    have hy : w * h * c = h * w * c := by ring
    omega
  have hnow2 : w * h * c < U32 := by
    have hx : w * h * c = h * w * c := by ring
    omega
  obtain ⟨d2', hr2, hlen2, heq2⟩ := transposePlanar_spec d1' dst2 w h c hv2.1 hcap2 hnow2
  rw [hr2] at h2
  have hd2 : d2' = d2 := congrArg Prod.snd (Option.some.inj h2)
  subst hd2
  have hhw0 : 0 < h * w := by
    have : 1 * 1 ≤ h * w := Nat.mul_le_mul (by omega) (by omega)
    omega
  set ch2 := i / (h * w) with hch2
  set rem := i % (h * w) with hrem
  set rr := rem / w with hrr
  set qq := rem % w with hqq
  have hch2c : ch2 < c := by
    rw [hch2, Nat.div_lt_iff_lt_mul hhw0]
    have hx : c * (h * w) = h * w * c := by ring
    omega
  have hremlt : rem < h * w := by
    rw [hrem]
    exact Nat.mod_lt _ hhw0
  have hrrh : rr < h := by
    rw [hrr, Nat.div_lt_iff_lt_mul wpos]
    have hx : h * w = w * h := by ring
    omega
  have hqqw : qq < w := by
    rw [hqq]
    exact Nat.mod_lt _ wpos
  have hi_eq : i = ch2 * (h * w) + rr * w + qq := by
    have e1 : (h * w) * ch2 + rem = i := by
      rw [hch2, hrem]
      exact Nat.div_add_mod i (h * w)
    have e2 : w * rr + qq = rem := by
      rw [hrr, hqq]
      exact Nat.div_add_mod rem w
    have c1 : (h * w) * ch2 = ch2 * (h * w) := by ring
    have c2 : w * rr = rr * w := by ring
    omega
  have step2 := heq2 ch2 qq rr hch2c hqqw hrrh
  have step1 := heq1 ch2 rr qq hch2c hrrh hqqw
  have hcwh : w * h = h * w := by ring
  rw [hcwh] at step2
  rw [show i = ch2 * (h * w) + rr * w + qq from hi_eq, step2, step1]

/-- C6 witness: the 2x2 single-channel involution at concrete buffers. -/
theorem c6_witness :
    2 * 2 * 1 < U32 ∧
    transposePlanar [(1 : Int), 2, 3, 4] 2 2 1 [0, 0, 0, 0] = some (true, [1, 3, 2, 4]) ∧
    transposePlanar [(1 : Int), 3, 2, 4] 2 2 1 [0, 0, 0, 0] = some (true, [1, 2, 3, 4]) ∧
    ([(1 : Int), 2, 3, 4])[1]? = ([(1 : Int), 2, 3, 4])[1]? :=
  ⟨by decide, by decide, by decide,
    c6_involution [(1 : Int), 2, 3, 4] [1, 3, 2, 4] [1, 2, 3, 4] [0, 0, 0, 0] [0, 0, 0, 0]
      2 2 1 (by decide) (by decide) (by decide) 1 (by decide)⟩

/-- C6 counterexample: the involution claim as stated is false. With shape
height = 131072, width = 65536, numChannels = 1 on buffers of length 2^32, both
transpose calls pass validation and complete (the capacity check sees
`131072 * 65536 % 2^32 = 0`), yet because the write indices `col*height + row`
are reduced modulo 2^32 they collide, and the double transpose does not restore
the original buffer: position 0 ends up holding 32768 instead of 0. -/
theorem c6_counterexample :
    ∃ d1 d2,
      transposePlanar ((List.range U32).map Int.ofNat) 131072 65536 1
        (List.replicate U32 0) = some (true, d1) ∧
      transposePlanar d1 65536 131072 1 (List.replicate U32 0) = some (true, d2) ∧
      ¬(∀ i, i < 131072 * 65536 * 1 →
        d2[i]? = ((List.range U32).map Int.ofNat)[i]?) := by
  have hsrclen : ((List.range U32).map Int.ofNat).length = U32 := by
    rw [List.length_map, List.length_range]
  have hdstlen : (List.replicate U32 (0 : Int)).length = U32 := by simp
  have h0U : 0 < U32 := by decide
  have hv1 : TransValid ((List.range U32).map Int.ofNat) 131072 65536 1
      (List.replicate U32 0) := by
    constructor
    · rw [hsrclen, hdstlen]
    · rw [hsrclen]
      decide
  have hin1 : ∀ ch2 r col, ch2 < 1 → r < 131072 → col < 65536 →
      (((ch2 * 131072) % U32 * 65536 % U32 + (r * 65536) % U32) % U32 + col) % U32
        < ((List.range U32).map Int.ofNat).length ∧
      (((ch2 * 131072) % U32 * 65536 % U32 + (col * 131072) % U32) % U32 + r) % U32
        < (List.replicate U32 (0 : Int)).length := by
    intro ch2 r col _ _ _
    rw [hsrclen, hdstlen]
    exact ⟨Nat.mod_lt _ h0U, Nat.mod_lt _ h0U⟩
  have hrun1 := transposePlanar_run ((List.range U32).map Int.ofNat)
    (List.replicate U32 0) 131072 65536 1 hv1 hin1
  have hd1len : (applyWrites
      ((List.range' 0 1).flatMap fun ch2 =>
        (List.range' 0 131072).flatMap fun r =>
          (List.range' 0 65536).map fun col =>
            ((((ch2 * 131072) % U32 * 65536 % U32 + (col * 131072) % U32) % U32 + r) % U32,
              ((List.range U32).map Int.ofNat).getD
                ((((ch2 * 131072) % U32 * 65536 % U32 + (r * 65536) % U32) % U32 + col) % U32)
                default)) (List.replicate U32 (0 : Int))).length = U32 := by
    rw [applyWrites_length, List.length_replicate]
  have hv2 : TransValid (applyWrites
      ((List.range' 0 1).flatMap fun ch2 =>
        (List.range' 0 131072).flatMap fun r =>
          (List.range' 0 65536).map fun col =>
            ((((ch2 * 131072) % U32 * 65536 % U32 + (col * 131072) % U32) % U32 + r) % U32,
              ((List.range U32).map Int.ofNat).getD
                ((((ch2 * 131072) % U32 * 65536 % U32 + (r * 65536) % U32) % U32 + col) % U32)
                default)) (List.replicate U32 (0 : Int))) 65536 131072 1 (List.replicate U32 0) := by
    constructor
    · rw [hd1len, hdstlen]
    · rw [hd1len]
      decide
  have hin2 : ∀ ch2 r col, ch2 < 1 → r < 65536 → col < 131072 →
      (((ch2 * 65536) % U32 * 131072 % U32 + (r * 131072) % U32) % U32 + col) % U32
        < (applyWrites
      ((List.range' 0 1).flatMap fun ch2 =>
        (List.range' 0 131072).flatMap fun r =>
          (List.range' 0 65536).map fun col =>
            ((((ch2 * 131072) % U32 * 65536 % U32 + (col * 131072) % U32) % U32 + r) % U32,
              ((List.range U32).map Int.ofNat).getD
                ((((ch2 * 131072) % U32 * 65536 % U32 + (r * 65536) % U32) % U32 + col) % U32)
                default)) (List.replicate U32 (0 : Int))).length ∧
      (((ch2 * 65536) % U32 * 131072 % U32 + (col * 65536) % U32) % U32 + r) % U32
        < (List.replicate U32 (0 : Int)).length := by
    intro ch2 r col _ _ _
    rw [hd1len, hdstlen]
    exact ⟨Nat.mod_lt _ h0U, Nat.mod_lt _ h0U⟩
  have hrun2 := transposePlanar_run (applyWrites
      ((List.range' 0 1).flatMap fun ch2 =>
        (List.range' 0 131072).flatMap fun r =>
          (List.range' 0 65536).map fun col =>
            ((((ch2 * 131072) % U32 * 65536 % U32 + (col * 131072) % U32) % U32 + r) % U32,
              ((List.range U32).map Int.ofNat).getD
                ((((ch2 * 131072) % U32 * 65536 % U32 + (r * 65536) % U32) % U32 + col) % U32)
                default)) (List.replicate U32 (0 : Int))) (List.replicate U32 0) 65536 131072 1 hv2 hin2
  have hget2 : (applyWrites
      ((List.range' 0 1).flatMap fun ch2 =>
        (List.range' 0 65536).flatMap fun r =>
          (List.range' 0 131072).map fun col =>
            ((((ch2 * 65536) % U32 * 131072 % U32 + (col * 65536) % U32) % U32 + r) % U32,
              (applyWrites
      ((List.range' 0 1).flatMap fun ch2 =>
        (List.range' 0 131072).flatMap fun r =>
          (List.range' 0 65536).map fun col =>
            ((((ch2 * 131072) % U32 * 65536 % U32 + (col * 131072) % U32) % U32 + r) % U32,
              ((List.range U32).map Int.ofNat).getD
                ((((ch2 * 131072) % U32 * 65536 % U32 + (r * 65536) % U32) % U32 + col) % U32)
                default)) (List.replicate U32 (0 : Int))).getD
                ((((ch2 * 65536) % U32 * 131072 % U32 + (r * 131072) % U32) % U32 + col) % U32)
                default)) (List.replicate U32 (0 : Int)))[(0 : Nat)]?
      = some ((applyWrites
      ((List.range' 0 1).flatMap fun ch2 =>
        (List.range' 0 131072).flatMap fun r =>
          (List.range' 0 65536).map fun col =>
            ((((ch2 * 131072) % U32 * 65536 % U32 + (col * 131072) % U32) % U32 + r) % U32,
              ((List.range U32).map Int.ofNat).getD
                ((((ch2 * 131072) % U32 * 65536 % U32 + (r * 65536) % U32) % U32 + col) % U32)
                default)) (List.replicate U32 (0 : Int))).getD 65536 default) := by
    have h := applyWrites_3d_get
      (fun ch2 r col =>
        (((ch2 * 65536) % U32 * 131072 % U32 + (col * 65536) % U32) % U32 + r) % U32)
      (fun ch2 r col => (applyWrites
      ((List.range' 0 1).flatMap fun ch2 =>
        (List.range' 0 131072).flatMap fun r =>
          (List.range' 0 65536).map fun col =>
            ((((ch2 * 131072) % U32 * 65536 % U32 + (col * 131072) % U32) % U32 + r) % U32,
              ((List.range U32).map Int.ofNat).getD
                ((((ch2 * 131072) % U32 * 65536 % U32 + (r * 65536) % U32) % U32 + col) % U32)
                default)) (List.replicate U32 (0 : Int))).getD
        ((((ch2 * 65536) % U32 * 131072 % U32 + (r * 131072) % U32) % U32 + col) % U32) default)
      1 65536 131072 (List.replicate U32 (0 : Int)) 0 0 65536
      (by omega) (by omega) (by omega)
      (by rw [hdstlen]; exact Nat.mod_lt _ h0U)
      (by
        intro o2 p2 q2 h1 h2 h3 h4
        simp only [U32]
        omega)
    exact h
  have hget1 : (applyWrites
      ((List.range' 0 1).flatMap fun ch2 =>
        (List.range' 0 131072).flatMap fun r =>
          (List.range' 0 65536).map fun col =>
            ((((ch2 * 131072) % U32 * 65536 % U32 + (col * 131072) % U32) % U32 + r) % U32,
              ((List.range U32).map Int.ofNat).getD
                ((((ch2 * 131072) % U32 * 65536 % U32 + (r * 65536) % U32) % U32 + col) % U32)
                default)) (List.replicate U32 (0 : Int)))[(65536 : Nat)]?
      = some (((List.range U32).map Int.ofNat).getD 32768 default) := by
    have h := applyWrites_3d_get
      (fun ch2 r col =>
        (((ch2 * 131072) % U32 * 65536 % U32 + (col * 131072) % U32) % U32 + r) % U32)
      (fun ch2 r col => ((List.range U32).map Int.ofNat).getD
        ((((ch2 * 131072) % U32 * 65536 % U32 + (r * 65536) % U32) % U32 + col) % U32) default)
      1 131072 65536 (List.replicate U32 (0 : Int)) 0 65536 32768
      (by omega) (by omega) (by omega)
      (by rw [hdstlen]; exact Nat.mod_lt _ h0U)
      (by
        intro o2 p2 q2 h1 h2 h3 h4
        simp only [U32]
        omega)
    exact h
  have hsrc32768 : ((List.range U32).map Int.ofNat).getD 32768 default = Int.ofNat 32768 := by
    rw [List.getD_eq_getElem?_getD, List.getElem?_map,
      List.getElem?_range (by decide : (32768 : Nat) < U32)]
    rfl
  have hsrc0 : ((List.range U32).map Int.ofNat)[(0 : Nat)]? = some (Int.ofNat 0) := by
    rw [List.getElem?_map, List.getElem?_range (by decide : (0 : Nat) < U32)]
    rfl
  refine ⟨_, _, hrun1, hrun2, ?_⟩
  intro hall
  have h0 := hall 0 (by decide)
  have h1 : some ((applyWrites
      ((List.range' 0 1).flatMap fun ch2 =>
        (List.range' 0 131072).flatMap fun r =>
          (List.range' 0 65536).map fun col =>
            ((((ch2 * 131072) % U32 * 65536 % U32 + (col * 131072) % U32) % U32 + r) % U32,
              ((List.range U32).map Int.ofNat).getD
                ((((ch2 * 131072) % U32 * 65536 % U32 + (r * 65536) % U32) % U32 + col) % U32)
                default)) (List.replicate U32 (0 : Int))).getD 65536 default) = some (Int.ofNat 0) :=
    (hget2.symm.trans h0).trans hsrc0
  have h2 := Option.some.inj h1
  have h3 : (applyWrites
      ((List.range' 0 1).flatMap fun ch2 =>
        (List.range' 0 131072).flatMap fun r =>
          (List.range' 0 65536).map fun col =>
            ((((ch2 * 131072) % U32 * 65536 % U32 + (col * 131072) % U32) % U32 + r) % U32,
              ((List.range U32).map Int.ofNat).getD
                ((((ch2 * 131072) % U32 * 65536 % U32 + (r * 65536) % U32) % U32 + col) % U32)
                default)) (List.replicate U32 (0 : Int))).getD 65536 default = Int.ofNat 32768 := by
    rw [List.getD_eq_getElem?_getD, hget1, hsrc32768, Option.getD_some]
  rw [h3] at h2
  exact absurd h2 (by decide)
